import Mathlib

/-!
Shallow embedding of the multi-tier pollen cache resolver of
`src/ml-model/data/realtime_client/` (files `client.py`, `static_data.py`,
`value_parsing.py`, `regions.py`).

Modelling conventions:
* Python dicts whose only observed operations are key lookup, membership and
  key insertion are modelled as association lists.  Maps built by repeated
  assignment where a later assignment must shadow an earlier one
  (`_parse_csv_payload`, the city-code dict comprehension of
  `_load_daily_pollen_map`) prepend, and lookup returns the first match.
  Maps that also need a faithful entry count and insertion order
  (`_daily_cache`, the disk cache directory) use `setKey` / `popKey`, which
  replace in place and keep keys unique.
* `YYYYMMDD` date keys are modelled as integer day numbers (`ℤ`); the code
  paths exercised by the claims only parse, format, compare and subtract
  valid dates, and `datetime` subtraction of two midnights divided into days
  is exactly integer day subtraction.
* Python floats are modelled as `ℚ`: the program only parses decimal
  literals and compares / adds them at magnitudes where the float results
  are exact enough that every comparison appearing in the claims coincides
  with the rational one.
* I/O is modelled by explicit state (`ClientState.disk`) plus oracle flags
  (`FetchEnv`): a disk read either raises (flag false) or returns the stored
  content; the live HTTP download is an oracle list of parsed entries
  (empty = nothing usable was downloaded); static per-station sample files
  are modelled as absent, which makes `_build_payload_from_static` take its
  documented defaults (the claims never read the numeric value of a static
  payload, only its `citycode`).
-/

set_option maxRecDepth 100000

namespace PollenStorm

/-- Association-list lookup: first binding wins (used for dicts built by
prepending, where the most recent assignment sits at the front). -/
def alookup {κ α : Type} [DecidableEq κ] : List (κ × α) → κ → Option α
  | [], _ => none
  | (k, v) :: rest, k' => if k = k' then some v else alookup rest k'

/-- Python `d[k] = v` on a dict with unique keys: replace in place if the
key is present, else append (dicts preserve insertion order). -/
def setKey {κ α : Type} [DecidableEq κ] : List (κ × α) → κ → α → List (κ × α)
  | [], k, v => [(k, v)]
  | (k', v') :: rest, k, v =>
      if k' = k then (k, v) :: rest else (k', v') :: setKey rest k v

/-- Python `d.pop(k, None)`: remove the binding of `k` (keys are unique in
every dict modelled here). -/
def popKey {κ α : Type} [DecidableEq κ] : List (κ × α) → κ → List (κ × α)
  | [], _ => []
  | (k', v) :: rest, k =>
      if k' = k then popKey rest k else (k', v) :: popKey rest k

/-- One parsed per-source daily record, as stored in a `pollen_<date>.json`
aggregate file.  Only the fields the claims inspect are kept: `citycode`
is `entry.get("citycode")` (`none` models a missing / falsy value), `pollen`
the numeric reading, `tag` stands for the rest of the payload so that two
distinct records can be told apart. -/
structure DailyEntry where
  citycode : Option String
  pollen : Option ℚ
  tag : String
deriving DecidableEq, Repr

/-- The per-date resolved map `alias → entry` (`pollen_map` in
`_load_daily_pollen_map`). -/
abbrev PollenMap := List (String × DailyEntry)

/-- The `RegionSource` dataclass of `regions.py`. -/
structure RegionSource where
  id : String
  name : String
  prefecture : String
  latitude : ℚ
  longitude : ℚ
  amedas_station : String
  forecast_city : String
  pollen_station : String
  city_code : Option String
deriving DecidableEq, Repr

/-- The `_DEFAULT_REGION_ITEMS` table of `regions.py`, run through
`_build_region_sources` (all eight ids are distinct, so the resulting dict
keeps them in listed order). -/
def defaultRegionSources : List RegionSource :=
  [ ⟨"tokyo", "東京", "東京都", 356762/10000, 1396503/10000,
      "44132", "130010", "441321000", some "13101"⟩,
    ⟨"osaka", "大阪", "大阪府", 346937/10000, 1355023/10000,
      "62078", "270000", "620780000", some "27128"⟩,
    ⟨"kyoto", "京都", "京都府", 350116/10000, 1357681/10000,
      "61286", "260010", "612860000", some "26104"⟩,
    ⟨"nagoya", "名古屋", "愛知県", 351815/10000, 1369066/10000,
      "51106", "230010", "511060000", some "23106"⟩,
    ⟨"fukuoka", "福岡", "福岡県", 335904/10000, 1304017/10000,
      "82182", "400010", "821820000", some "40133"⟩,
    ⟨"sapporo", "札幌", "北海道", 430642/10000, 1413469/10000,
      "47412", "016000", "474120000", some "01101"⟩,
    ⟨"sendai", "仙台", "宮城県", 382682/10000, 1408694/10000,
      "54202", "040010", "542020000", some "04101"⟩,
    ⟨"hiroshima", "広島", "広島県", 343853/10000, 1324553/10000,
      "67437", "340010", "674370000", some "34101"⟩ ]

/-- Model of `StaticDataMixin._classify_level` of `static_data.py` (lines 145-154),
branch for branch (the `value >= 1` branch and the final `else` both return
`"low"`, exactly as in the source). -/
def classifyLevel (value : ℚ) : String :=
  if value ≥ 101 then "very_high"
  else if value ≥ 31 then "high"
  else if value ≥ 11 then "moderate"
  else if value ≥ 1 then "low"
  else "low"

/-- One row of the delimited upstream payload after `csv.DictReader` and the
column fallbacks of `_parse_csv_payload`: `citycode` is
`(row.get("citycode") or row.get("city_code") or "").strip()` (so `""`
models a missing city code), `pollenRaw` is the result of
`float(row.get("pollen") or row.get("value") or row.get("pollen_count"))`
with `none` for a missing or unparseable value, `date` is
`(row.get("date") or row.get("datetime") or "").strip()`. -/
structure CsvRow where
  citycode : String
  pollenRaw : Option ℚ
  date : String
deriving DecidableEq, Repr

/-- The entry `_parse_csv_payload` stores per city code. -/
structure ParsedEntry where
  citycode : String
  date : String
  pollen : Option ℚ
  raw : CsvRow
deriving DecidableEq, Repr

/-- The value normalization of `_parse_csv_payload` (`value_parsing.py`
lines 72-80): an unparseable value stays absent; a parsed value within
`1e-3` of the `-9999` no-data sentinel becomes `0.0`; any other negative
value is dropped (`None`); the rest pass through. -/
def normalizePollen : Option ℚ → Option ℚ
  | none => none
  | some x =>
      if |x + 9999| < 1/1000 then some 0
      else if x < 0 then none
      else some x

/-- Model of `_parse_csv_payload` (`value_parsing.py` lines 56-89): rows without a
city code are skipped; otherwise the row is stored under its city code,
later rows shadowing earlier ones with the same code. -/
def parseCsvPayload (rows : List CsvRow) : List (String × ParsedEntry) :=
  rows.foldl
    (fun m row =>
      if row.citycode = "" then m
      else (row.citycode,
            ⟨row.citycode, row.date, normalizePollen row.pollenRaw, row⟩) :: m)
    []

/-- The city-code dict comprehension of `_load_daily_pollen_map`
(`client.py` lines 279-282): keep entries with a truthy `citycode`, later
entries shadowing earlier ones with the same code. -/
def cityCodeMap (entries : List DailyEntry) : PollenMap :=
  entries.foldl
    (fun m e =>
      match e.citycode with
      | some c => if c = "" then m else (c, e) :: m
      | none => m)
    []

/-- The alias tuple iterated at `client.py` lines 292-297. -/
def sourceAliases (s : RegionSource) : List String :=
  [s.pollen_station, s.forecast_city, s.amedas_station, s.id]

/-- Model of `if alias and alias not in pollen_map: pollen_map[alias] = entry`
(`client.py` lines 298-299). -/
def addAlias (m : PollenMap) (e : DailyEntry) (a : String) : PollenMap :=
  if a ≠ "" ∧ alookup m a = none then (a, e) :: m else m

/-- The inner alias loop of `_load_daily_pollen_map`. -/
def addAliases (m : PollenMap) (e : DailyEntry) : List String → PollenMap
  | [] => m
  | a :: rest => addAliases (addAlias m e a) e rest

/-- One iteration of the alias-expansion loop (`client.py` lines 286-299):
a source with a truthy city code that is a key of the map has its aliases
bound to that key's entry; all other sources are skipped. -/
def expandSource (m : PollenMap) (s : RegionSource) : PollenMap :=
  match s.city_code with
  | none => m
  | some cc =>
      if cc = "" then m
      else
        match alookup m cc with
        | none => m
        | some e => addAliases m e (sourceAliases s)

/-- The alias-expansion loop over `REGION_SOURCES.values()`. -/
def expandAliases (sources : List RegionSource) (m : PollenMap) : PollenMap :=
  sources.foldl expandSource m

/-- The full resolved map built from a list of cached entries
(`client.py` lines 279-299). -/
def buildPollenMap (sources : List RegionSource) (entries : List DailyEntry) :
    PollenMap :=
  expandAliases sources (cityCodeMap entries)

/-- A parsed weather record (`_parse_weather_metrics` output plus the
`observed_at` / `source` stamps; only the shape matters to the claims). -/
structure WeatherEntry where
  temperature : ℚ
  humidity : ℚ
  windSpeed : ℚ
  windDirection : ℚ
  condition : Option String
deriving DecidableEq, Repr

/-- The value `(now - target).days` for two timestamps in seconds: Python
`timedelta.days` floor-divides the signed duration by one day. -/
def daysBetween (now target : ℤ) : ℤ := Int.fdiv (now - target) 86400

/-- The per-city fetch-and-bind loop of `_load_weather_data` (`client.py`
lines 350-390): sources without a forecast city are skipped; for each
remaining source whose city fetch succeeds, the entry is bound under the
forecast city, the truthy city code and the region id.  The real code
groups sources by forecast city first; since the fetch oracle is a pure
function, fetching per source yields the same map. -/
def fetchWeatherMap (sources : List RegionSource)
    (fetch : String → Option WeatherEntry) :
    List (String × WeatherEntry) :=
  let withFc := sources.filter (fun s => s.forecast_city ≠ "")
  if withFc = [] then []
  else
    withFc.foldl
      (fun m s =>
        match fetch s.forecast_city with
        | none => m
        | some w =>
            let m1 := setKey m s.forecast_city w
            let m2 :=
              match s.city_code with
              | some cc => if cc = "" then m1 else setKey m1 cc w
              | none => m1
            setKey m2 s.id w)
      []

/-- Model of `_load_weather_data` (`client.py` lines 337-390): empty when there are
no sources, and when a target date is given whose `timedelta.days` distance
from now exceeds 1 in absolute value the whole lookup is skipped. -/
def loadWeatherData (sources : List RegionSource) (now : ℤ)
    (target : Option ℤ) (fetch : String → Option WeatherEntry) :
    List (String × WeatherEntry) :=
  if sources = [] then []
  else
    match target with
    | some t =>
        if |daysBetween now t| > 1 then []
        else fetchWeatherMap sources fetch
    | none => fetchWeatherMap sources fetch

/-- Best-match accumulator of `_load_recent_cache`
(`(delta_days, candidate_day, key, payload)`; the redundant string key is
dropped since it is determined by the day). -/
structure BestMatch where
  delta : ℤ
  day : ℤ
  payload : List DailyEntry
deriving DecidableEq, Repr

/-- The update condition of `_load_recent_cache` (`client.py` lines
798-800): `best_match is None or delta_days < best_match[0] or
(delta_days == best_match[0] and candidate_day > best_match[1])`. -/
def betterMatch (delta day : ℤ) (best : Option BestMatch) : Bool :=
  match best with
  | none => true
  | some b =>
      decide (delta < b.delta) ||
        (decide (delta = b.delta) && decide (day > b.day))

/-- One iteration of the candidate scan of `_load_recent_cache`
(`client.py` lines 767-801): skip the requested date itself, unreadable
files, empty payloads and candidates more than 365 days away; otherwise
keep the candidate iff there is no best match yet, it is strictly nearer,
or it ties on distance with a later date. -/
def recentStep (target : ℤ) (scanOk : ℤ → Bool)
    (best : Option BestMatch) (c : ℤ × List DailyEntry) :
    Option BestMatch :=
  if c.1 = target then best
  else if scanOk c.1 = false then best
  else if c.2 = [] then best
  else if |c.1 - target| > 365 then best
  else if betterMatch |c.1 - target| c.1 best
  then some ⟨|c.1 - target|, c.1, c.2⟩
  else best

/-- Model of `_load_recent_cache` (`client.py` lines 751-807) over the list of
aggregate cache files on disk (an arbitrary order, matching the
unspecified glob order; a file whose read raises is modelled by
`scanOk` returning false for its date). -/
def loadRecentCache (target : ℤ) (scanOk : ℤ → Bool)
    (files : List (ℤ × List DailyEntry)) :
    Option (ℤ × List DailyEntry) :=
  match files.foldl (recentStep target scanOk) none with
  | none => none
  | some b => some (b.day, b.payload)

/-- A candidate file the scan of `_load_recent_cache` accepts. -/
def staleCandidate (target : ℤ) (scanOk : ℤ → Bool)
    (c : ℤ × List DailyEntry) : Prop :=
  c.1 ≠ target ∧ scanOk c.1 = true ∧ c.2 ≠ [] ∧ |c.1 - target| ≤ 365

instance (target : ℤ) (scanOk : ℤ → Bool) (c : ℤ × List DailyEntry) :
    Decidable (staleCandidate target scanOk c) := by
  unfold staleCandidate; infer_instance

/-- Invariant carried through the scan fold. -/
abbrev scanInv (target : ℤ) (scanOk : ℤ → Bool)
    (seen : List (ℤ × List DailyEntry)) (best : Option BestMatch) : Prop :=
  (best = none → ∀ c ∈ seen, ¬ staleCandidate target scanOk c) ∧
  (∀ b : BestMatch, best = some b →
    (b.day, b.payload) ∈ seen ∧
    staleCandidate target scanOk (b.day, b.payload) ∧
    b.delta = |b.day - target| ∧
    ∀ c ∈ seen, staleCandidate target scanOk c →
      b.delta < |c.1 - target| ∨ (b.delta = |c.1 - target| ∧ c.1 ≤ b.day))

/-- Python string `or`-chaining: `a or b` evaluates to `b` when `a` is the
empty string. -/
def pyOr (a b : String) : String := if a = "" then b else a

/-- The `citycode` field of a static payload (`static_data.py` lines 92-95):
`source.city_code or source.pollen_station or source.forecast_city or
source.id`. -/
def staticCitycode (s : RegionSource) : String :=
  pyOr (s.city_code.getD "") (pyOr s.pollen_station (pyOr s.forecast_city s.id))

/-- One entry of `_build_static_entries` (`static_data.py` lines 103-125).
`_build_payload_from_static` always returns a payload (a missing static
sample file just yields the documented defaults), so one entry is produced
per region source; only its `citycode` is ever read by the resolver. -/
def buildStaticEntry (s : RegionSource) : DailyEntry :=
  ⟨some (staticCitycode s), none, "static"⟩

/-- Model of `_build_static_entries`: one static payload per configured region. -/
def buildStaticEntries (sources : List RegionSource) : List DailyEntry :=
  sources.map buildStaticEntry

/-- The provenance tag stored in `_cache_source_keys`: the date itself,
`"static_<date>"`, or the date of a stale fallback file. -/
inductive SourceKey where
  | forDate (d : ℤ)
  | staticFor (d : ℤ)
  | stale (d : ℤ)
deriving DecidableEq, Repr

/-- The mutable state of `RealtimeDataClient` observed by the claims:
`_daily_cache`, `_cache_source_keys`, and the disk cache directory
(`pollen_<date>.json` aggregate files). -/
structure ClientState where
  dailyCache : List (ℤ × PollenMap)
  sourceKeys : List (ℤ × SourceKey)
  disk : List (ℤ × List DailyEntry)
deriving DecidableEq, Repr

/-- The external world of one `_load_daily_pollen_map` call:
`DISABLE_LIVE_FETCH`, whether the two reads of the date's own cache file
raise (`readOk1` for lines 201-209, `readOk2` for the retry at lines
246-261), whether the persist write succeeds, what
`_download_daily_entries` yields (`[]` when nothing usable was
downloaded), the region registry, and which files the stale scan can
read. -/
structure FetchEnv where
  disableLiveFetch : Bool
  readOk1 : Bool
  readOk2 : Bool
  writeOk : Bool
  downloaded : List DailyEntry
  sources : List RegionSource
  scanOk : ℤ → Bool

/-- The slice `sorted_keys[:-370]` of `_prune_memory_cache`: the stale keys, i.e.
everything but the 370 largest dates.  (`sorted(...)` is modelled with
insertion sort, which produces the same ascending permutation as any
sort.) -/
def pruneStaleKeys (keys : List ℤ) : List ℤ :=
  let sortedKeys := keys.insertionSort (fun a b => a ≤ b)
  sortedKeys.take (sortedKeys.length - 370)

/-- Model of `_prune_memory_cache` (`client.py` lines 860-874): nothing happens at
370 entries or fewer; otherwise the oldest-by-date keys are popped from
both `_daily_cache` and `_cache_source_keys` until 370 remain. -/
def pruneMemoryCache (st : ClientState) : ClientState :=
  if st.dailyCache.length ≤ 370 then st
  else
    let staleKeys := pruneStaleKeys (st.dailyCache.map Prod.fst)
    ⟨staleKeys.foldl popKey st.dailyCache,
     staleKeys.foldl popKey st.sourceKeys,
     st.disk⟩

/-- The initial disk read of `_load_daily_pollen_map` (`client.py` lines
196-209): only attempted when the file exists, no refresh is forced and
live fetching is *not* disabled; a raised read (`readOk1 = false`) leaves
`cached_entries` as `None`. -/
def initialDiskRead (st : ClientState) (env : FetchEnv) (d : ℤ)
    (force : Bool) : Option (List DailyEntry) :=
  if (alookup st.disk d).isSome = true ∧ force = false ∧
      env.disableLiveFetch = false ∧ env.readOk1 = true
  then alookup st.disk d
  else none

/-- Intermediate result of the refresh block: `cached_entries`,
`cache_source_key`, what was persisted to the date's aggregate file, and
the resulting disk contents. -/
structure RefreshOut where
  cached : Option (List DailyEntry)
  srcKey : SourceKey
  persisted : Option (List DailyEntry)
  disk : List (ℤ × List DailyEntry)
deriving Repr

/-- What `_download_daily_entries` contributes: nothing when live
fetching is disabled (`client.py` lines 214-217). -/
def liveEntries (env : FetchEnv) : List DailyEntry :=
  if env.disableLiveFetch then [] else env.downloaded

/-- The value of `downloaded_entries` after the static fallback (`client.py` lines
218-220). -/
def refreshEntries (env : FetchEnv) : List DailyEntry :=
  if liveEntries env = [] then buildStaticEntries env.sources
  else liveEntries env

/-- The refresh block of `_load_daily_pollen_map` (`client.py` lines
211-261), entered with `cached_entries = None` (or a forced refresh, in
which case the initial read was skipped and `cached_entries` is `None`
anyway): download unless live fetch is disabled, fall back to synthesized
static entries, persist any entries obtained (the entries are kept even if
the write fails), and otherwise retry the date's own disk file once. -/
def refreshBlock (st : ClientState) (env : FetchEnv) (d : ℤ) : RefreshOut :=
  if refreshEntries env ≠ [] then
    { cached := some (refreshEntries env),
      srcKey := if liveEntries env = [] then SourceKey.staticFor d
                else SourceKey.forDate d,
      persisted := if env.writeOk then some (refreshEntries env) else none,
      disk := if env.writeOk then setKey st.disk d (refreshEntries env)
              else st.disk }
  else if (alookup st.disk d).isSome = true then
    match (if env.readOk2 then alookup st.disk d else none) with
    | some payload =>
        { cached := some payload, srcKey := SourceKey.forDate d,
          persisted := none, disk := st.disk }
    | none =>
        { cached := none, srcKey := SourceKey.forDate d,
          persisted := none, disk := st.disk }
  else
    { cached := none, srcKey := SourceKey.forDate d,
      persisted := none, disk := st.disk }

/-- What one `_load_daily_pollen_map` call returns and leaves behind. -/
structure ResolveResult where
  map : PollenMap
  state : ClientState
  persisted : Option (List DailyEntry)
deriving Repr

/-- The tail of `_load_daily_pollen_map` (`client.py` lines 273-304): with
no usable entries, store an empty map for the date (without pruning) and
return it; otherwise build the citycode map, expand aliases, store it and
prune the memory cache. -/
def finalizeResolve (st : ClientState) (env : FetchEnv) (d : ℤ)
    (r : RefreshOut) : ResolveResult :=
  match r.cached with
  | some (e :: es) =>
      let pm := buildPollenMap env.sources (e :: es)
      ⟨pm,
       pruneMemoryCache
         ⟨setKey st.dailyCache d pm, setKey st.sourceKeys d r.srcKey,
          r.disk⟩,
       r.persisted⟩
  | _ =>
      ⟨[],
       ⟨setKey st.dailyCache d [], setKey st.sourceKeys d r.srcKey, r.disk⟩,
       r.persisted⟩

/-- Model of `_load_daily_pollen_map` after the memory-hit check: initial disk
read, refresh block, stale fallback (`client.py` lines 263-271), then
finalization. -/
def resolveFresh (st : ClientState) (env : FetchEnv) (d : ℤ)
    (force : Bool) : ResolveResult :=
  let cached0 := initialDiskRead st env d force
  let r : RefreshOut :=
    if cached0 = none ∨ force = true then refreshBlock st env d
    else ⟨cached0, SourceKey.forDate d, none, st.disk⟩
  let r2 : RefreshOut :=
    if r.cached = none ∨ r.cached = some [] then
      match loadRecentCache d env.scanOk r.disk with
      | some kp => ⟨some kp.2, SourceKey.stale kp.1, r.persisted, r.disk⟩
      | none => r
    else r
  finalizeResolve st env d r2

/-- Model of `_load_daily_pollen_map` (`client.py` lines 184-304): unless a refresh
is forced, a memory hit short-circuits; otherwise the tiered resolution
runs. -/
def loadDailyPollenMap (st : ClientState) (env : FetchEnv) (d : ℤ)
    (force : Bool) : ResolveResult :=
  match (if force then none else alookup st.dailyCache d) with
  | some m => ⟨m, st, none⟩
  | none => resolveFresh st env d force

/-- A fresh client state: empty memory cache, no source keys, no disk
files. -/
def emptyState : ClientState := ⟨[], [], []⟩

/-- Environment with every tier empty (used to drive a resolution to
total exhaustion). -/
def exhaustEnv : FetchEnv := ⟨false, true, true, true, [], [], fun _ => false⟩

/-- Environment whose download yields one entry without a citycode: the
resolution succeeds (so the prune runs) but stores an empty map, and
nothing is written to disk. -/
def fillerEnv : FetchEnv :=
  ⟨false, true, true, false, [⟨none, none, "x"⟩], [], fun _ => false⟩

/-- Environment whose download yields one usable entry. -/
def liveEnv : FetchEnv :=
  ⟨false, true, true, false, [⟨some "c", none, "live"⟩], [], fun _ => false⟩

/-- A client state whose memory cache already holds 370 dates (1 … 370),
as left behind by resolving 370 recent dates. -/
def seededState : ClientState :=
  ⟨(List.range 370).map (fun i => ((i : ℤ) + 1, [])), [], []⟩

/-- The 400 distinct dates 0 … 399. -/
def dates400 : List ℤ := List.map (fun i : ℕ => (i : ℤ)) (List.range 400)

/-- A client state with 370 later dates in memory and a disk file for
date 0. -/
def fullState : ClientState :=
  ⟨(List.range 370).map (fun i => ((i : ℤ) + 1, [])), [],
   [(0, [⟨some "c", some 5, "disk"⟩])]⟩

/-- Environment that reads from disk only. -/
def diskEnv : FetchEnv := ⟨false, true, true, false, [], [], fun _ => true⟩

/-- C3: the severity classifier returns `"very_high"` iff v ≥ 101, `"high"`
iff 31 ≤ v < 101, `"moderate"` iff 11 ≤ v < 31 and `"low"` iff v < 11; in
particular 11 → moderate, 10.999 → low, 31 → high, 30.999 → moderate,
101 → very_high and 100.999 → high. -/
theorem classifyLevel_thresholds :
    (∀ v : ℚ,
      (classifyLevel v = "very_high" ↔ 101 ≤ v) ∧
      (classifyLevel v = "high" ↔ 31 ≤ v ∧ v < 101) ∧
      (classifyLevel v = "moderate" ↔ 11 ≤ v ∧ v < 31) ∧
      (classifyLevel v = "low" ↔ v < 11)) ∧
    classifyLevel 11 = "moderate" ∧
    classifyLevel (10999/1000) = "low" ∧
    classifyLevel 31 = "high" ∧
    classifyLevel (30999/1000) = "moderate" ∧
    classifyLevel 101 = "very_high" ∧
    classifyLevel (100999/1000) = "high" := by
  refine ⟨fun v => ?_, by norm_num [classifyLevel], by norm_num [classifyLevel],
    by norm_num [classifyLevel], by norm_num [classifyLevel],
    by norm_num [classifyLevel], by norm_num [classifyLevel]⟩
  unfold classifyLevel
  split_ifs with h1 h2 h3 h4 <;>
    refine ⟨⟨fun hvh => ?_, fun hvh => ?_⟩, ⟨fun hvh => ?_, fun hvh => ?_⟩,
      ⟨fun hvh => ?_, fun hvh => ?_⟩, ⟨fun hvh => ?_, fun hvh => ?_⟩⟩ <;>
    first
      | rfl
      | linarith
      | (exact absurd hvh (by decide))
      | (exact absurd hvh.1 (by linarith))
      | (exact absurd hvh.2 (by linarith))
      | (constructor <;> linarith)

/-- Every binding produced by `parseCsvPayload` stores the normalized value
of its own raw row. -/
theorem parseCsvPayload_mem_invariant (rows : List CsvRow)
    (acc : List (String × ParsedEntry))
    (hacc : ∀ p ∈ acc, (p.2 : ParsedEntry).pollen =
      normalizePollen p.2.raw.pollenRaw) :
    ∀ p ∈ rows.foldl
      (fun m row =>
        if row.citycode = "" then m
        else (row.citycode,
              ⟨row.citycode, row.date, normalizePollen row.pollenRaw, row⟩)
          :: m)
      acc,
      (p.2 : ParsedEntry).pollen = normalizePollen p.2.raw.pollenRaw := by
  induction rows generalizing acc with
  | nil => exact hacc
  | cons r rest ih =>
      intro p hp
      refine ih _ ?_ p hp
      intro q hq
      by_cases h : r.citycode = ""
      · simp only [h, if_pos rfl] at hq
        exact hacc q hq
      · simp only [if_neg h, List.mem_cons] at hq
        rcases hq with hq | hq
        · subst hq; rfl
        · exact hacc q hq

/-- A successful association-list lookup returns a member of the list. -/
theorem alookup_mem {κ α : Type} [DecidableEq κ]
    (m : List (κ × α)) (k : κ) (v : α) (h : alookup m k = some v) :
    (k, v) ∈ m := by
  induction m with
  | nil => simp [alookup] at h
  | cons p rest ih =>
      rw [alookup] at h
      split at h
      · next heq =>
          cases h
          cases p
          simp_all
      · exact List.mem_cons_of_mem _ (ih h)

/-- C5 counterexample: the row value `-9998.9995` is negative and differs
from the `-9999` sentinel, yet `_parse_csv_payload` stores it as a valid
`0.0` reading instead of discarding it (the sentinel test uses a `1e-3`
tolerance band, not equality). -/
theorem parseCsvPayload_negative_counterexample :
    ((-19997999 : ℚ)/2000 < 0) ∧ ((-19997999 : ℚ)/2000 ≠ -9999) ∧
    alookup
      (parseCsvPayload [⟨"13101", some ((-19997999 : ℚ)/2000), "20240101"⟩])
      "13101" =
      some ⟨"13101", "20240101", some 0,
        ⟨"13101", some ((-19997999 : ℚ)/2000), "20240101"⟩⟩ := by
  refine ⟨by norm_num, by norm_num, ?_⟩
  have : normalizePollen (some ((-19997999 : ℚ)/2000)) = some 0 := by
    rw [normalizePollen]
    rw [if_pos (by rw [abs_lt]; constructor <;> norm_num)]
  simp [parseCsvPayload, alookup, this]

/-- C5 (amended): for every row stored by `_parse_csv_payload`, a parsed
value within `1e-3` of the `-9999` no-data sentinel (in particular the
sentinel itself) normalizes to `0.0`, every negative value at distance at
least `1e-3` from the sentinel is stored as absent, and non-negative values
pass through unchanged. -/
theorem parseCsvPayload_sentinel (rows : List CsvRow) (cc : String)
    (e : ParsedEntry) (v : ℚ)
    (hlk : alookup (parseCsvPayload rows) cc = some e)
    (hraw : e.raw.pollenRaw = some v) :
    (|v + 9999| < 1/1000 → e.pollen = some 0) ∧
    (v < 0 → ¬ |v + 9999| < 1/1000 → e.pollen = none) ∧
    (0 ≤ v → e.pollen = some v) := by
  have hmem := alookup_mem _ _ _ hlk
  have hnorm : e.pollen = normalizePollen e.raw.pollenRaw :=
    parseCsvPayload_mem_invariant rows [] (by simp) (cc, e) hmem
  rw [hraw] at hnorm
  refine ⟨fun h => ?_, fun hneg h => ?_, fun hpos => ?_⟩
  · rw [hnorm, normalizePollen, if_pos h]
  · rw [hnorm, normalizePollen, if_neg h, if_pos hneg]
  · have habs : ¬ |v + 9999| < 1/1000 := by
      rw [abs_of_nonneg (by linarith)]; intro h; linarith
    rw [hnorm, normalizePollen, if_neg habs, if_neg (by linarith)]

/-- Witness for `parseCsvPayload_sentinel` at the sentinel value itself. -/
theorem parseCsvPayload_sentinel_witness :
    alookup (parseCsvPayload [⟨"27128", some (-9999), ""⟩]) "27128" =
      some ⟨"27128", "", some 0, ⟨"27128", some (-9999), ""⟩⟩ ∧
    (⟨"27128", "", some 0,
      ⟨"27128", some (-9999), ""⟩⟩ : ParsedEntry).pollen = some 0 := by
  have h : alookup (parseCsvPayload [⟨"27128", some (-9999), ""⟩]) "27128" =
      some ⟨"27128", "", some 0, ⟨"27128", some (-9999), ""⟩⟩ := by
    have : normalizePollen (some (-9999 : ℚ)) = some 0 := by
      rw [normalizePollen, if_pos (by norm_num)]
    simp [parseCsvPayload, alookup, this]
  exact ⟨h,
    (parseCsvPayload_sentinel [⟨"27128", some (-9999), ""⟩] "27128"
      ⟨"27128", "", some 0, ⟨"27128", some (-9999), ""⟩⟩ (-9999) h rfl).1
      (by norm_num)⟩

theorem addAlias_preserves (m : PollenMap) (e : DailyEntry) (a k : String)
    (v : DailyEntry) (h : alookup m k = some v) :
    alookup (addAlias m e a) k = some v := by
  unfold addAlias
  split
  · next hcond =>
      rw [alookup]
      split
      · next heq => rw [heq, h] at hcond; exact absurd hcond.2 (by simp)
      · exact h
  · exact h

theorem addAliases_preserves (as : List String) (m : PollenMap)
    (e : DailyEntry) (k : String) (v : DailyEntry)
    (h : alookup m k = some v) :
    alookup (addAliases m e as) k = some v := by
  induction as generalizing m with
  | nil => exact h
  | cons a rest ih => exact ih _ (addAlias_preserves m e a k v h)

theorem expandSource_preserves (m : PollenMap) (s : RegionSource)
    (k : String) (v : DailyEntry) (h : alookup m k = some v) :
    alookup (expandSource m s) k = some v := by
  unfold expandSource
  rcases s.city_code with _ | cc
  · exact h
  · simp only
    split
    · exact h
    · rcases hcc : alookup m cc with _ | e
      · exact h
      · exact addAliases_preserves _ m e k v h

theorem expandAliases_preserves (sources : List RegionSource)
    (m : PollenMap) (k : String) (v : DailyEntry)
    (h : alookup m k = some v) :
    alookup (expandAliases sources m) k = some v := by
  induction sources generalizing m with
  | nil => exact h
  | cons s rest ih => exact ih _ (expandSource_preserves m s k v h)

theorem addAliases_new (as : List String) (m : PollenMap) (e : DailyEntry)
    (k : String) (v : DailyEntry) (h0 : alookup m k = none)
    (h : alookup (addAliases m e as) k = some v) :
    v = e ∧ k ∈ as := by
  induction as generalizing m with
  | nil => rw [addAliases, h0] at h; cases h
  | cons a rest ih =>
      rcases hmid : alookup (addAlias m e a) k with _ | v'
      · obtain ⟨hv, hk⟩ := ih _ hmid h
        exact ⟨hv, List.mem_cons_of_mem _ hk⟩
      · have hfin := addAliases_preserves rest _ e k v' hmid
        rw [addAliases] at h
        rw [h] at hfin
        obtain rfl : v = v' := Option.some.inj hfin
        have hkv : v = e ∧ k = a := by
          unfold addAlias at hmid
          split at hmid
          · rw [alookup] at hmid
            split at hmid
            · next heq => exact ⟨(Option.some.inj hmid).symm, heq.symm⟩
            · rw [h0] at hmid; cases hmid
          · rw [h0] at hmid; cases hmid
        exact ⟨hkv.1, by rw [hkv.2]; exact List.mem_cons_self a rest⟩

theorem expandSource_new (m : PollenMap) (s : RegionSource) (k : String)
    (v : DailyEntry) (h0 : alookup m k = none)
    (h : alookup (expandSource m s) k = some v) :
    ∃ cc, s.city_code = some cc ∧ k ∈ sourceAliases s ∧
      alookup m cc = some v := by
  unfold expandSource at h
  rcases hcity : s.city_code with _ | cc
  · rw [hcity] at h; rw [h0] at h; cases h
  · rw [hcity] at h
    simp only at h
    split at h
    · rw [h0] at h; cases h
    · rcases hcc : alookup m cc with _ | e
      · rw [hcc, h0] at h; cases h
      · rw [hcc] at h
        obtain ⟨hv, hk⟩ := addAliases_new _ m e k v h0 h
        exact ⟨cc, rfl, hk, by rw [hcc, hv]⟩

theorem expandAliases_new (sources : List RegionSource) (m : PollenMap)
    (k : String) (v : DailyEntry) (h0 : alookup m k = none)
    (h : alookup (expandAliases sources m) k = some v) :
    ∃ s ∈ sources, ∃ cc, s.city_code = some cc ∧ k ∈ sourceAliases s ∧
      alookup (expandAliases sources m) cc = some v := by
  induction sources generalizing m with
  | nil => rw [expandAliases, List.foldl_nil, h0] at h; cases h
  | cons s rest ih =>
      have hstep : expandAliases (s :: rest) m =
          expandAliases rest (expandSource m s) := rfl
      rcases hmid : alookup (expandSource m s) k with _ | v'
      · rw [hstep] at h
        obtain ⟨s', hs', cc, hcity, hal, hcc⟩ := ih _ hmid h
        exact ⟨s', List.mem_cons_of_mem _ hs', cc, hcity, hal, by
          rw [hstep]; exact hcc⟩
      · have hfin := expandAliases_preserves rest _ k v' hmid
        rw [hstep] at h
        rw [h] at hfin
        cases hfin
        obtain ⟨cc, hcity, hal, hcc⟩ := expandSource_new m s k v h0 hmid
        refine ⟨s, List.mem_cons_self s rest, cc, hcity, hal, ?_⟩
        rw [hstep]
        exact expandAliases_preserves rest _ cc v
          (expandSource_preserves m s cc v hcc)

/-- C2 counterexample: with cached entries for city codes `"13101"` and
`"441321000"`, the Tokyo source (city code `"13101"`, station alias
`"441321000"`, amedas alias `"44132"`) ends up with its amedas alias bound
to the `"13101"` entry but its pollen-station alias bound to the distinct
`"441321000"` entry, because a pre-existing key is never rebound — two
aliases of one matched source resolving to different entries. -/
theorem buildPollenMap_alias_counterexample :
    alookup (buildPollenMap defaultRegionSources
        [⟨some "13101", none, "a"⟩, ⟨some "441321000", none, "b"⟩])
      "44132" = some ⟨some "13101", none, "a"⟩ ∧
    alookup (buildPollenMap defaultRegionSources
        [⟨some "13101", none, "a"⟩, ⟨some "441321000", none, "b"⟩])
      "441321000" = some ⟨some "441321000", none, "b"⟩ ∧
    "44132" ∈ sourceAliases (defaultRegionSources.get ⟨0, by decide⟩) ∧
    "441321000" ∈ sourceAliases (defaultRegionSources.get ⟨0, by decide⟩) ∧
    (⟨some "13101", none, "a"⟩ : DailyEntry) ≠
      ⟨some "441321000", none, "b"⟩ := by
  refine ⟨?_, ?_, by decide, by decide, by decide⟩ <;> decide

/-- C2 (amended): alias expansion never rebinds an existing key (its entry
is preserved verbatim), and every key it newly introduces is an alias of
some source whose city-code key maps to that very same entry in the
resolved map — so all aliases *introduced for one matched source* share one
entry, while an alias that already existed as a key keeps its previous,
possibly different, entry. -/
theorem expandAliases_alias_consistency :
    (∀ (sources : List RegionSource) (m : PollenMap) (k : String)
        (v : DailyEntry), alookup m k = some v →
        alookup (expandAliases sources m) k = some v) ∧
    (∀ (sources : List RegionSource) (m : PollenMap) (k : String)
        (v : DailyEntry), alookup m k = none →
        alookup (expandAliases sources m) k = some v →
        ∃ s ∈ sources, ∃ cc, s.city_code = some cc ∧
          k ∈ sourceAliases s ∧
          alookup (expandAliases sources m) cc = some v) :=
  ⟨expandAliases_preserves, expandAliases_new⟩

/-- Witness for `expandAliases_alias_consistency`: the amedas alias
`"44132"` added for Tokyo indeed shares the entry of city code `"13101"`. -/
theorem expandAliases_alias_consistency_witness :
    alookup ([("13101", (⟨some "13101", none, "a"⟩ : DailyEntry))] :
      PollenMap) "13101" = some ⟨some "13101", none, "a"⟩ ∧
    alookup (expandAliases defaultRegionSources
      [("13101", ⟨some "13101", none, "a"⟩)]) "13101" =
      some ⟨some "13101", none, "a"⟩ ∧
    (∃ s ∈ defaultRegionSources, ∃ cc, s.city_code = some cc ∧
      "44132" ∈ sourceAliases s ∧
      alookup (expandAliases defaultRegionSources
        [("13101", ⟨some "13101", none, "a"⟩)]) cc =
        some ⟨some "13101", none, "a"⟩) :=
  ⟨by decide,
   expandAliases_alias_consistency.1 defaultRegionSources
     [("13101", ⟨some "13101", none, "a"⟩)] "13101"
     ⟨some "13101", none, "a"⟩ (by decide),
   expandAliases_alias_consistency.2 defaultRegionSources
     [("13101", ⟨some "13101", none, "a"⟩)] "44132"
     ⟨some "13101", none, "a"⟩ (by decide) (by decide)⟩

/-- C9 counterexample: a target 36 hours in the past is outside the ±1-day
window (`|now - target| = 129600 > 86400` seconds), yet the weather lookup
still fetches and returns a non-empty map, because
`timedelta.days` floors `+36h` to `1`. -/
theorem loadWeatherData_window_counterexample :
    ((0 : ℤ) - (-129600) > 86400) ∧
    loadWeatherData defaultRegionSources 0 (some (-129600))
      (fun _ => some ⟨20, 60, 3, 180, none⟩) ≠ [] := by
  constructor
  · decide
  · show (if defaultRegionSources = [] then []
      else if |daysBetween 0 (-129600)| > 1 then []
      else fetchWeatherMap defaultRegionSources
        (fun _ => some ⟨20, 60, 3, 180, none⟩)) ≠ []
    rw [if_neg (by decide), if_neg (by decide)]
    decide

/-- C9 (amended): the weather lookup is skipped (returns the empty map)
exactly when the floored day difference `(now - target).days` lies outside
`[-1, 1]`, i.e. weather is only fetched for targets in the asymmetric
window `now - 2 days < target ≤ now + 1 day`. -/
theorem loadWeatherData_window (sources : List RegionSource) (now t : ℤ)
    (fetch : String → Option WeatherEntry) :
    (|daysBetween now t| > 1 →
      loadWeatherData sources now (some t) fetch = []) ∧
    (|daysBetween now t| ≤ 1 ↔
      now - 2 * 86400 < t ∧ t ≤ now + 86400) := by
  constructor
  · intro h
    show (if sources = [] then []
      else if |daysBetween now t| > 1 then []
      else fetchWeatherMap sources fetch) = []
    by_cases hs : sources = []
    · rw [if_pos hs]
    · rw [if_neg hs, if_pos h]
  · rw [abs_le, daysBetween, Int.fdiv_eq_ediv _ (by norm_num)]
    omega

/-- Witness for `loadWeatherData_window`: a target two full days in the
past is skipped. -/
theorem loadWeatherData_window_witness :
    |daysBetween 0 (-(2 * 86400))| > 1 ∧
    loadWeatherData defaultRegionSources 0 (some (-(2 * 86400)))
      (fun _ => some ⟨20, 60, 3, 180, none⟩) = [] :=
  ⟨by decide,
   (loadWeatherData_window defaultRegionSources 0 (-(2 * 86400))
     (fun _ => some ⟨20, 60, 3, 180, none⟩)).1 (by decide)⟩

theorem betterMatch_some_iff (delta day : ℤ) (b : BestMatch) :
    betterMatch delta day (some b) = true ↔
      delta < b.delta ∨ (delta = b.delta ∧ day > b.day) := by
  simp [betterMatch]

theorem recentStep_inv (target : ℤ) (scanOk : ℤ → Bool)
    (seen : List (ℤ × List DailyEntry)) (best : Option BestMatch)
    (c : ℤ × List DailyEntry) (hinv : scanInv target scanOk seen best) :
    scanInv target scanOk (seen ++ [c]) (recentStep target scanOk best c) := by
  by_cases hc : staleCandidate target scanOk c
  · obtain ⟨h1, h2, h3, h4⟩ := id hc
    have hcpair : staleCandidate target scanOk (c.1, c.2) := hc
    have hstep : recentStep target scanOk best c =
        if betterMatch |c.1 - target| c.1 best
        then some ⟨|c.1 - target|, c.1, c.2⟩
        else best := by
      rw [recentStep, if_neg h1, if_neg (by rw [h2]; decide),
        if_neg h3, if_neg (by omega)]
    rcases best with _ | b
    · rw [hstep,
        if_pos (show betterMatch |c.1 - target| c.1 none = true from rfl)]
      refine ⟨(fun hno => nomatch hno), fun b' hb' => ?_⟩
      obtain rfl : b' = ⟨|c.1 - target|, c.1, c.2⟩ :=
        (Option.some.inj hb').symm
      refine ⟨by simp, hcpair, rfl, ?_⟩
      intro d hd hdc
      rcases List.mem_append.mp hd with hd | hd
      · exact absurd hdc (hinv.1 rfl d hd)
      · obtain rfl : d = c := by simpa using hd
        right
        exact ⟨rfl, le_refl _⟩
    · obtain ⟨hb1, hb2, hb3, hb4⟩ := hinv.2 b rfl
      rw [hstep]
      by_cases hwin : betterMatch |c.1 - target| c.1 (some b) = true
      · rw [if_pos hwin]
        rw [betterMatch_some_iff] at hwin
        refine ⟨(fun hno => nomatch hno), fun b' hb' => ?_⟩
        obtain rfl : b' = ⟨|c.1 - target|, c.1, c.2⟩ :=
          (Option.some.inj hb').symm
        refine ⟨by simp, hcpair, rfl, ?_⟩
        intro d hd hdc
        rcases List.mem_append.mp hd with hd | hd
        · show |c.1 - target| < |d.1 - target| ∨
            (|c.1 - target| = |d.1 - target| ∧ d.1 ≤ c.1)
          rcases hb4 d hd hdc with hlt | ⟨heq, hle⟩ <;>
            rcases hwin with hw | ⟨hweq, hwgt⟩ <;> omega
        · obtain rfl : d = c := by simpa using hd
          right
          exact ⟨rfl, le_refl _⟩
      · rw [if_neg hwin]
        rw [betterMatch_some_iff] at hwin
        push_neg at hwin
        refine ⟨(fun hno => nomatch hno), fun b' hb' => ?_⟩
        obtain rfl : b' = b := (Option.some.inj hb').symm
        refine ⟨List.mem_append_left _ hb1, hb2, hb3, ?_⟩
        intro d hd hdc
        rcases List.mem_append.mp hd with hd | hd
        · exact hb4 d hd hdc
        · obtain rfl : d = c := by simpa using hd
          rcases lt_or_eq_of_le hwin.1 with hlt | heq
          · left; exact hlt
          · right; exact ⟨heq, hwin.2 heq.symm⟩
  · have hc' := hc
    unfold staleCandidate at hc'
    push_neg at hc'
    have hstep : recentStep target scanOk best c = best := by
      rw [recentStep]
      by_cases e1 : c.1 = target
      · rw [if_pos e1]
      · rw [if_neg e1]
        by_cases e2 : scanOk c.1 = false
        · rw [if_pos e2]
        · rw [if_neg e2]
          have e2' : scanOk c.1 = true := by
            revert e2; cases scanOk c.1 <;> simp
          by_cases e3 : c.2 = []
          · rw [if_pos e3]
          · rw [if_neg e3, if_pos (by have := hc' e1 e2' e3; omega)]
    rw [hstep]
    constructor
    · intro hno d hd
      rcases List.mem_append.mp hd with hd | hd
      · exact hinv.1 hno d hd
      · obtain rfl : d = c := by simpa using hd
        exact hc
    · intro b hb
      obtain ⟨hb1, hb2, hb3, hb4⟩ := hinv.2 b hb
      refine ⟨List.mem_append_left _ hb1, hb2, hb3, ?_⟩
      intro d hd hdc
      rcases List.mem_append.mp hd with hd | hd
      · exact hb4 d hd hdc
      · obtain rfl : d = c := by simpa using hd
        exact absurd hdc hc

theorem scanFold_inv (target : ℤ) (scanOk : ℤ → Bool)
    (files : List (ℤ × List DailyEntry)) :
    ∀ (seen : List (ℤ × List DailyEntry)) (best : Option BestMatch),
      scanInv target scanOk seen best →
      scanInv target scanOk (seen ++ files)
        (files.foldl (recentStep target scanOk) best) := by
  induction files with
  | nil => intro seen best h; simpa using h
  | cons c rest ih =>
      intro seen best h
      have := ih (seen ++ [c]) (recentStep target scanOk best c)
        (recentStep_inv target scanOk seen best c h)
      simpa using this

/-- C4: whenever the stale-fallback scan returns a date and payload, that
candidate was an existing, readable, non-empty cache file within 365 days
of the target; no accepted candidate is strictly nearer, and any candidate
tying on distance has an earlier-or-equal date (later dates win ties).
If it returns nothing, no acceptable candidate existed.  In particular,
with candidates exactly at `D - 2` and `D + 2`, the `D + 2` content is
selected. -/
theorem loadRecentCache_nearest :
    (∀ (target : ℤ) (scanOk : ℤ → Bool)
        (files : List (ℤ × List DailyEntry)) (k : ℤ)
        (p : List DailyEntry),
      loadRecentCache target scanOk files = some (k, p) →
        ((k, p) ∈ files ∧ staleCandidate target scanOk (k, p) ∧
          ∀ c ∈ files, staleCandidate target scanOk c →
            |k - target| < |c.1 - target| ∨
            (|k - target| = |c.1 - target| ∧ c.1 ≤ k))) ∧
    (∀ (target : ℤ) (scanOk : ℤ → Bool)
        (files : List (ℤ × List DailyEntry)),
      loadRecentCache target scanOk files = none →
        ∀ c ∈ files, ¬ staleCandidate target scanOk c) ∧
    (∀ (target : ℤ) (scanOk : ℤ → Bool) (p1 p2 : List DailyEntry),
      p1 ≠ [] → p2 ≠ [] → scanOk (target - 2) = true →
      scanOk (target + 2) = true →
      loadRecentCache target scanOk [(target - 2, p1), (target + 2, p2)] =
        some (target + 2, p2)) := by
  have hinv0 : ∀ (target : ℤ) (scanOk : ℤ → Bool),
      scanInv target scanOk [] none :=
    fun _ _ => ⟨fun _ c hc => absurd hc (List.not_mem_nil c),
      fun b hb => by cases hb⟩
  refine ⟨?_, ?_, ?_⟩
  · intro target scanOk files k p h
    have hinv := scanFold_inv target scanOk files [] none
      (hinv0 target scanOk)
    rw [loadRecentCache] at h
    rcases hfold : files.foldl (recentStep target scanOk) none with _ | b
    · rw [hfold] at h; cases h
    · rw [hfold] at h
      have hkp : (b.day, b.payload) = (k, p) := Option.some.inj h
      rw [Prod.mk.injEq] at hkp
      obtain ⟨hk, hp⟩ := hkp
      subst hk; subst hp
      rw [hfold] at hinv
      obtain ⟨h1, h2, h3, h4⟩ := hinv.2 b rfl
      simp only [List.nil_append] at h1 h4
      refine ⟨h1, h2, ?_⟩
      intro c hc hcand
      rw [← h3]
      exact h4 c hc hcand
  · intro target scanOk files h
    have hinv := scanFold_inv target scanOk files [] none
      (hinv0 target scanOk)
    rw [loadRecentCache] at h
    rcases hfold : files.foldl (recentStep target scanOk) none with _ | b
    · rw [hfold] at hinv
      intro c hc
      exact hinv.1 rfl c (by simpa using hc)
    · rw [hfold] at h; cases h
  · intro target scanOk p1 p2 hp1 hp2 hs1 hs2
    have habs1 : |target - 2 - target| = 2 := by
      rw [show target - 2 - target = (-2 : ℤ) from by ring]; decide
    have habs2 : |target + 2 - target| = 2 := by
      rw [show target + 2 - target = (2 : ℤ) from by ring]; decide
    have hstep1 : recentStep target scanOk none (target - 2, p1) =
        some ⟨2, target - 2, p1⟩ := by
      show (if target - 2 = target then (none : Option BestMatch)
        else if scanOk (target - 2) = false then none
        else if p1 = [] then none
        else if |target - 2 - target| > 365 then none
        else if betterMatch |target - 2 - target| (target - 2) none
        then some (⟨|target - 2 - target|, target - 2, p1⟩ : BestMatch)
        else none) = some (⟨2, target - 2, p1⟩ : BestMatch)
      rw [habs1]
      rw [if_neg (by omega), if_neg (by rw [hs1]; decide), if_neg hp1,
        if_neg (by omega),
        if_pos (show betterMatch 2 (target - 2) none = true from rfl)]
    have hstep2 : recentStep target scanOk (some ⟨2, target - 2, p1⟩)
        (target + 2, p2) = some ⟨2, target + 2, p2⟩ := by
      show (if target + 2 = target
        then some (⟨2, target - 2, p1⟩ : BestMatch)
        else if scanOk (target + 2) = false
        then some (⟨2, target - 2, p1⟩ : BestMatch)
        else if p2 = [] then some (⟨2, target - 2, p1⟩ : BestMatch)
        else if |target + 2 - target| > 365
        then some (⟨2, target - 2, p1⟩ : BestMatch)
        else if betterMatch |target + 2 - target| (target + 2)
            (some (⟨2, target - 2, p1⟩ : BestMatch))
        then some (⟨|target + 2 - target|, target + 2, p2⟩ : BestMatch)
        else some (⟨2, target - 2, p1⟩ : BestMatch)) =
        some (⟨2, target + 2, p2⟩ : BestMatch)
      rw [habs2]
      rw [if_neg (by omega), if_neg (by rw [hs2]; decide), if_neg hp2,
        if_neg (by omega),
        if_pos ((betterMatch_some_iff 2 (target + 2) _).mpr
          (Or.inr ⟨rfl, show target + 2 > target - 2 from by omega⟩))]
    rw [loadRecentCache, List.foldl_cons, hstep1, List.foldl_cons, hstep2,
      List.foldl_nil]

/-- Witness for `loadRecentCache_nearest` on a concrete two-file layout. -/
theorem loadRecentCache_nearest_witness :
    loadRecentCache 1000 (fun _ => true)
        [((998 : ℤ), [⟨none, none, "p1"⟩]),
         ((1002 : ℤ), [⟨none, none, "p2"⟩])] =
      some (1002, [⟨none, none, "p2"⟩]) ∧
    ((1002 : ℤ), [(⟨none, none, "p2"⟩ : DailyEntry)]) ∈
      [((998 : ℤ), [(⟨none, none, "p1"⟩ : DailyEntry)]),
       ((1002 : ℤ), [⟨none, none, "p2"⟩])] ∧
    staleCandidate 1000 (fun _ => true)
      (1002, [(⟨none, none, "p2"⟩ : DailyEntry)]) := by
  have h : loadRecentCache 1000 (fun _ => true)
      [((998 : ℤ), [⟨none, none, "p1"⟩]),
       ((1002 : ℤ), [⟨none, none, "p2"⟩])] =
      some (1002, [⟨none, none, "p2"⟩]) := by
    have := loadRecentCache_nearest.2.2 1000 (fun _ => true)
      [⟨none, none, "p1"⟩] [⟨none, none, "p2"⟩]
      (by decide) (by decide) rfl rfl
    norm_num at this
    convert this using 2
  refine ⟨h, ?_, ?_⟩
  · exact ((loadRecentCache_nearest.1 1000 (fun _ => true) _ 1002
      [⟨none, none, "p2"⟩] h).1)
  · exact ((loadRecentCache_nearest.1 1000 (fun _ => true) _ 1002
      [⟨none, none, "p2"⟩] h).2.1)

theorem alookup_setKey {κ α : Type} [DecidableEq κ]
    (m : List (κ × α)) (k k' : κ) (v : α) :
    alookup (setKey m k v) k' = if k = k' then some v else alookup m k' := by
  induction m with
  | nil => simp [setKey, alookup]
  | cons p rest ih =>
      obtain ⟨a, b⟩ := p
      rw [setKey]
      by_cases hak : a = k
      · subst hak
        rw [if_pos rfl]
        by_cases hk : a = k'
        · rw [alookup, if_pos hk, if_pos hk]
        · rw [alookup, if_neg hk, if_neg hk, alookup, if_neg hk]
      · rw [if_neg hak]
        by_cases hk : a = k'
        · rw [alookup, if_pos hk, alookup, if_pos hk,
            if_neg (fun h => hak (h.trans hk.symm).symm)]
        · rw [alookup, if_neg hk, ih, alookup, if_neg hk]

theorem alookup_popKey {κ α : Type} [DecidableEq κ]
    (m : List (κ × α)) (k0 k : κ) :
    alookup (popKey m k0) k = if k = k0 then none else alookup m k := by
  induction m with
  | nil => rw [popKey, alookup, ite_self]
  | cons p rest ih =>
      obtain ⟨a, b⟩ := p
      rw [popKey]
      by_cases hak : a = k0
      · subst hak
        rw [if_pos rfl, ih]
        by_cases hk : k = a
        · simp [hk]
        · rw [if_neg hk, if_neg hk, alookup,
            if_neg (fun h => hk h.symm)]
      · rw [if_neg hak, alookup]
        by_cases hk : a = k
        · rw [if_pos hk, alookup, if_pos hk,
            if_neg (fun h => hak (hk.trans h))]
        · rw [if_neg hk, ih, alookup, if_neg hk]

theorem alookup_isSome_iff_mem {κ α : Type} [DecidableEq κ]
    (m : List (κ × α)) (k : κ) :
    (alookup m k).isSome = true ↔ k ∈ m.map Prod.fst := by
  induction m with
  | nil => simp [alookup]
  | cons p rest ih =>
      obtain ⟨a, b⟩ := p
      rw [alookup]
      by_cases hk : a = k
      · subst hk
        simp
      · rw [if_neg hk]
        simp only [List.map_cons, List.mem_cons]
        rw [ih]
        constructor
        · exact fun h => Or.inr h
        · rintro (h | h)
          · exact absurd h.symm hk
          · exact h

theorem setKey_of_none {κ α : Type} [DecidableEq κ]
    (m : List (κ × α)) (k : κ) (v : α) (h : alookup m k = none) :
    setKey m k v = m ++ [(k, v)] := by
  induction m with
  | nil => rfl
  | cons p rest ih =>
      obtain ⟨a, b⟩ := p
      rw [alookup] at h
      rw [setKey]
      by_cases hak : a = k
      · rw [if_pos hak] at h; cases h
      · rw [if_neg hak] at h
        rw [if_neg hak, List.cons_append, ih h]

/-- Lemma: `_load_daily_pollen_map` returns a memory hit unchanged
(`client.py` lines 189-190). -/
theorem loadDailyPollenMap_memHit (st : ClientState) (env : FetchEnv)
    (d : ℤ) (m : PollenMap) (h : alookup st.dailyCache d = some m) :
    loadDailyPollenMap st env d false = ⟨m, st, none⟩ := by
  simp [loadDailyPollenMap, h]

/-- On a memory miss (or a forced refresh), `_load_daily_pollen_map` runs
the tiered resolution. -/
theorem loadDailyPollenMap_memMiss (st : ClientState) (env : FetchEnv)
    (d : ℤ) (force : Bool)
    (h : (if force then none else alookup st.dailyCache d) = none) :
    loadDailyPollenMap st env d force = resolveFresh st env d force := by
  simp only [loadDailyPollenMap, h]

/-- Total exhaustion: no disk file, nothing downloaded or synthesized, and
no stale fallback leaves an empty map stored for the date, nothing
persisted and the disk untouched. -/
theorem resolveFresh_exhausted (st : ClientState) (env : FetchEnv)
    (d : ℤ) (force : Bool)
    (hdisk : alookup st.disk d = none)
    (hlive : (if env.disableLiveFetch then [] else env.downloaded) =
      ([] : List DailyEntry))
    (hstatic : buildStaticEntries env.sources = [])
    (hscan : loadRecentCache d env.scanOk st.disk = none) :
    resolveFresh st env d force =
      ⟨[],
       ⟨setKey st.dailyCache d [],
        setKey st.sourceKeys d (SourceKey.forDate d), st.disk⟩,
       none⟩ := by
  have h0 : initialDiskRead st env d force = none := by
    rw [initialDiskRead]
    rw [if_neg (by rw [hdisk]; simp)]
  have hE : refreshEntries env = [] := by
    rw [refreshEntries, show liveEntries env = [] from hlive, if_pos rfl,
      hstatic]
  have hrb : refreshBlock st env d =
      ⟨none, SourceKey.forDate d, none, st.disk⟩ := by
    rw [refreshBlock, if_neg (by simp [hE]), if_neg (by rw [hdisk]; simp)]
  simp only [resolveFresh, h0, hrb, finalizeResolve]
  simp [hscan]

theorem pruneMemoryCache_disk (st : ClientState) :
    (pruneMemoryCache st).disk = st.disk := by
  rw [pruneMemoryCache]
  split <;> rfl

/-- C7: `_load_daily_pollen_map` is a total function of its inputs (every
upstream or I/O failure in the source is caught and modelled as the tier
missing), and when every tier misses — no memory entry, no disk file for
the date, nothing downloaded, no static entries, no stale fallback — it
returns the empty map and persists nothing. -/
theorem loadDailyPollenMap_exhausted_empty (st : ClientState)
    (env : FetchEnv) (d : ℤ) (force : Bool)
    (hmem : alookup st.dailyCache d = none)
    (hdisk : alookup st.disk d = none)
    (hdown : env.downloaded = [])
    (hstatic : buildStaticEntries env.sources = [])
    (hscan : loadRecentCache d env.scanOk st.disk = none) :
    (loadDailyPollenMap st env d force).map = [] ∧
    (loadDailyPollenMap st env d force).persisted = none := by
  have hmiss : (if force then none else alookup st.dailyCache d) = none := by
    cases force <;> simp [hmem]
  rw [loadDailyPollenMap_memMiss st env d force hmiss,
    resolveFresh_exhausted st env d force hdisk
      (by cases env.disableLiveFetch <;> simp [hdown]) hstatic hscan]
  exact ⟨rfl, rfl⟩

/-- Witness for `loadDailyPollenMap_exhausted_empty` on a fresh state with
an empty region registry and nothing downloadable. -/
theorem loadDailyPollenMap_exhausted_empty_witness :
    alookup emptyState.dailyCache 0 = none ∧
    (loadDailyPollenMap emptyState
      ⟨false, true, true, true, [], [], fun _ => false⟩ 0 false).map = [] ∧
    (loadDailyPollenMap emptyState
      ⟨false, true, true, true, [], [], fun _ => false⟩ 0
        false).persisted = none :=
  ⟨rfl,
   loadDailyPollenMap_exhausted_empty emptyState
     ⟨false, true, true, true, [], [], fun _ => false⟩ 0 false
     rfl rfl rfl rfl rfl⟩

/-- The disk-hit path: file present, readable, live fetch enabled, no
forced refresh — the disk entries are alias-expanded, stored and pruned;
nothing is written back. -/
theorem resolveFresh_diskHit (st : ClientState) (env : FetchEnv) (d : ℤ)
    (es : List DailyEntry)
    (hdisk : alookup st.disk d = some es)
    (hlive : env.disableLiveFetch = false)
    (hread : env.readOk1 = true)
    (hne : es ≠ []) :
    resolveFresh st env d false =
      ⟨buildPollenMap env.sources es,
       pruneMemoryCache
         ⟨setKey st.dailyCache d (buildPollenMap env.sources es),
          setKey st.sourceKeys d (SourceKey.forDate d), st.disk⟩,
       none⟩ := by
  have h0 : initialDiskRead st env d false = some es := by
    rw [initialDiskRead,
      if_pos ⟨by rw [hdisk]; rfl, rfl, hlive, hread⟩, hdisk]
  obtain ⟨e, es', rfl⟩ := List.exists_cons_of_ne_nil hne
  simp only [resolveFresh, h0]
  rw [if_neg (by simp)]
  rw [if_neg (by simp)]
  rfl

/-- C1 (amended): when live fetching is *enabled*, the file for the date
exists with non-empty readable content, no refresh is forced and there is
no memory entry, `_load_daily_pollen_map` returns exactly the disk
content — keyed by citycode and alias-expanded — persisting nothing and
leaving the disk untouched. -/
theorem loadDailyPollenMap_disk_content (st : ClientState) (env : FetchEnv)
    (d : ℤ) (es : List DailyEntry)
    (hlive : env.disableLiveFetch = false)
    (hread : env.readOk1 = true)
    (hmem : alookup st.dailyCache d = none)
    (hdisk : alookup st.disk d = some es)
    (hne : es ≠ []) :
    (loadDailyPollenMap st env d false).map =
      buildPollenMap env.sources es ∧
    (loadDailyPollenMap st env d false).persisted = none ∧
    (loadDailyPollenMap st env d false).state.disk = st.disk := by
  rw [loadDailyPollenMap_memMiss st env d false (by simp [hmem]),
    resolveFresh_diskHit st env d es hdisk hlive hread hne]
  exact ⟨rfl, rfl, pruneMemoryCache_disk _⟩

/-- Witness for `loadDailyPollenMap_disk_content` on a one-file disk. -/
theorem loadDailyPollenMap_disk_content_witness :
    (loadDailyPollenMap ⟨[], [], [(7, [⟨some "27128", some 3, "d"⟩])]⟩
      ⟨false, true, true, true, [], defaultRegionSources, fun _ => true⟩
      7 false).map =
      buildPollenMap defaultRegionSources [⟨some "27128", some 3, "d"⟩] ∧
    (loadDailyPollenMap ⟨[], [], [(7, [⟨some "27128", some 3, "d"⟩])]⟩
      ⟨false, true, true, true, [], defaultRegionSources, fun _ => true⟩
      7 false).persisted = none :=
  ⟨(loadDailyPollenMap_disk_content
      ⟨[], [], [(7, [⟨some "27128", some 3, "d"⟩])]⟩
      ⟨false, true, true, true, [], defaultRegionSources, fun _ => true⟩
      7 [⟨some "27128", some 3, "d"⟩] rfl rfl rfl (by decide)
      (by decide)).1,
   (loadDailyPollenMap_disk_content
      ⟨[], [], [(7, [⟨some "27128", some 3, "d"⟩])]⟩
      ⟨false, true, true, true, [], defaultRegionSources, fun _ => true⟩
      7 [⟨some "27128", some 3, "d"⟩] rfl rfl rfl (by decide)
      (by decide)).2.1⟩

/-- C1 counterexample: with live fetching *disabled* (the claim's own
hypothesis), a readable non-empty disk file for the date and no memory
entry, the resolver does not return the disk content: line 199 of
`client.py` skips the disk read when `DISABLE_LIVE_FETCH` is set, so the
static fallback synthesizes entries, persists them over the existing file,
and the returned map holds the static entry, not the disk one. -/
theorem loadDailyPollenMap_disabled_bypass_counterexample :
    alookup (⟨[], [], [(0, [⟨some "13101", some 5, "disk"⟩])]⟩ :
      ClientState).disk 0 = some [⟨some "13101", some 5, "disk"⟩] ∧
    (loadDailyPollenMap ⟨[], [], [(0, [⟨some "13101", some 5, "disk"⟩])]⟩
      ⟨true, true, true, true, [], defaultRegionSources, fun _ => true⟩
      0 false).persisted = some (buildStaticEntries defaultRegionSources) ∧
    alookup (loadDailyPollenMap
      ⟨[], [], [(0, [⟨some "13101", some 5, "disk"⟩])]⟩
      ⟨true, true, true, true, [], defaultRegionSources, fun _ => true⟩
      0 false).map "13101" = some ⟨some "13101", none, "static"⟩ ∧
    (⟨some "13101", none, "static"⟩ : DailyEntry) ≠
      ⟨some "13101", some 5, "disk"⟩ := by
  refine ⟨by decide, by decide, by decide, by decide⟩

/-- C10 (amended): a fully exhausted resolution stores the empty map under
its date, and as long as that entry is in memory every further
non-forced resolve of the date is answered from memory — the result is
`⟨[], unchanged state, nothing persisted⟩` for *any* environment, so no
disk, live, static or stale tier is re-attempted.  (The entry can also
disappear without a forced refresh: the 370-entry prune triggered by
resolving other dates can evict it, see the counterexample.) -/
theorem loadDailyPollenMap_empty_memoized (st : ClientState)
    (env : FetchEnv) (d : ℤ)
    (hmem : alookup st.dailyCache d = none)
    (hdisk : alookup st.disk d = none)
    (hdown : env.downloaded = [])
    (hstatic : buildStaticEntries env.sources = [])
    (hscan : loadRecentCache d env.scanOk st.disk = none) :
    (loadDailyPollenMap st env d false).map = [] ∧
    alookup (loadDailyPollenMap st env d false).state.dailyCache d =
      some [] ∧
    ∀ env2 : FetchEnv,
      loadDailyPollenMap (loadDailyPollenMap st env d false).state env2 d
        false =
      ⟨[], (loadDailyPollenMap st env d false).state, none⟩ := by
  rw [loadDailyPollenMap_memMiss st env d false (by simp [hmem]),
    resolveFresh_exhausted st env d false hdisk
      (by cases env.disableLiveFetch <;> simp [hdown]) hstatic hscan]
  refine ⟨rfl, ?_, ?_⟩
  · show alookup (setKey st.dailyCache d []) d = some []
    rw [alookup_setKey, if_pos rfl]
  · intro env2
    exact loadDailyPollenMap_memHit _ env2 d []
      (by rw [alookup_setKey, if_pos rfl])

/-- Witness for `loadDailyPollenMap_empty_memoized`: after an exhausted
resolve, a second resolve is answered from memory even in an environment
that could now download data. -/
theorem loadDailyPollenMap_empty_memoized_witness :
    (loadDailyPollenMap emptyState
      ⟨false, true, true, true, [], [], fun _ => false⟩ 0 false).map = [] ∧
    loadDailyPollenMap
      (loadDailyPollenMap emptyState
        ⟨false, true, true, true, [], [], fun _ => false⟩ 0 false).state
      ⟨false, true, true, true, [⟨some "c", none, "live"⟩], [],
        fun _ => false⟩ 0 false =
    ⟨[],
     (loadDailyPollenMap emptyState
       ⟨false, true, true, true, [], [], fun _ => false⟩ 0 false).state,
     none⟩ :=
  ⟨(loadDailyPollenMap_empty_memoized emptyState
      ⟨false, true, true, true, [], [], fun _ => false⟩ 0
      rfl rfl rfl rfl rfl).1,
   (loadDailyPollenMap_empty_memoized emptyState
      ⟨false, true, true, true, [], [], fun _ => false⟩ 0
      rfl rfl rfl rfl rfl).2.2
     ⟨false, true, true, true, [⟨some "c", none, "live"⟩], [],
       fun _ => false⟩⟩

/-- C10 counterexample: the memoized empty entry for date 0 is *not* kept
until a forced refresh — with 370 later dates in memory, one further
resolve of another date triggers the 370-entry prune, which evicts date 0
(the oldest); the next non-forced resolve of date 0 then re-runs the tiers
and can return non-empty data. -/
theorem loadDailyPollenMap_empty_evicted_counterexample :
    alookup (loadDailyPollenMap seededState exhaustEnv 0
      false).state.dailyCache 0 = some [] ∧
    alookup (loadDailyPollenMap
      (loadDailyPollenMap seededState exhaustEnv 0 false).state
      fillerEnv 371 false).state.dailyCache 0 = none ∧
    (loadDailyPollenMap (loadDailyPollenMap
      (loadDailyPollenMap seededState exhaustEnv 0 false).state
      fillerEnv 371 false).state liveEnv 0 false).map ≠ [] := by
  refine ⟨by decide, by decide, by decide⟩

theorem setKey_length_of_none {κ α : Type} [DecidableEq κ]
    (m : List (κ × α)) (k : κ) (v : α) (h : alookup m k = none) :
    (setKey m k v).length = m.length + 1 := by
  rw [setKey_of_none m k v h, List.length_append]
  rfl

/-- Folding exhausted resolutions (every tier empty) over distinct fresh
dates appends one empty-map entry per date to the memory cache and never
prunes. -/
theorem exhaustFold (dates : List ℤ) :
    ∀ st : ClientState, st.disk = [] → dates.Nodup →
    (∀ d ∈ dates, alookup st.dailyCache d = none) →
    ((dates.foldl
        (fun s d => (loadDailyPollenMap s exhaustEnv d false).state)
        st).disk = [] ∧
     (dates.foldl
        (fun s d => (loadDailyPollenMap s exhaustEnv d false).state)
        st).dailyCache.length = st.dailyCache.length + dates.length ∧
     (∀ k, k ∉ dates →
       alookup (dates.foldl
         (fun s d => (loadDailyPollenMap s exhaustEnv d false).state)
         st).dailyCache k = alookup st.dailyCache k) ∧
     (∀ k ∈ dates,
       alookup (dates.foldl
         (fun s d => (loadDailyPollenMap s exhaustEnv d false).state)
         st).dailyCache k = some [])) := by
  induction dates with
  | nil =>
      intro st h1 _ _
      exact ⟨h1, by simp, fun k _ => rfl,
        fun k hk => absurd hk (List.not_mem_nil k)⟩
  | cons d rest ih =>
      intro st hdisk hnd hfresh
      have hd0 : alookup st.dailyCache d = none :=
        hfresh d (List.mem_cons_self d rest)
      have hstep : loadDailyPollenMap st exhaustEnv d false =
          ⟨[],
           ⟨setKey st.dailyCache d [],
            setKey st.sourceKeys d (SourceKey.forDate d), st.disk⟩,
           none⟩ := by
        rw [loadDailyPollenMap_memMiss st exhaustEnv d false
            (by simp [hd0]),
          resolveFresh_exhausted st exhaustEnv d false
            (by rw [hdisk]; rfl) rfl rfl (by rw [hdisk]; rfl)]
      have hnd' := List.nodup_cons.mp hnd
      have hfresh' : ∀ d' ∈ rest,
          alookup (setKey st.dailyCache d []) d' = none := by
        intro d' hd'
        rw [alookup_setKey, if_neg (by intro h; subst h; exact hnd'.1 hd')]
        exact hfresh d' (List.mem_cons_of_mem _ hd')
      obtain ⟨ihdisk, ihlen, ihout, ihin⟩ :=
        ih ⟨setKey st.dailyCache d [],
            setKey st.sourceKeys d (SourceKey.forDate d), st.disk⟩
          hdisk hnd'.2 hfresh'
      rw [List.foldl_cons, hstep]
      refine ⟨ihdisk, ?_, ?_, ?_⟩
      · rw [ihlen]
        show (setKey st.dailyCache d []).length + rest.length =
          st.dailyCache.length + (d :: rest).length
        rw [setKey_length_of_none _ _ _ hd0, List.length_cons]
        omega
      · intro k hk
        have hk1 : k ≠ d := fun h => hk (h ▸ List.mem_cons_self d rest)
        have hk2 : k ∉ rest := fun h => hk (List.mem_cons_of_mem _ h)
        rw [ihout k hk2]
        show alookup (setKey st.dailyCache d []) k = _
        rw [alookup_setKey, if_neg (fun h => hk1 h.symm)]
      · intro k hk
        rcases List.mem_cons.mp hk with rfl | hk
        · rw [ihout k hnd'.1]
          show alookup (setKey st.dailyCache k []) k = some []
          rw [alookup_setKey, if_pos rfl]
        · exact ihin k hk

/-- C6 counterexample: resolving 400 distinct dates whose every tier is
exhausted leaves all 400 empty-map entries in memory — the store of an
empty resolution (`client.py` lines 273-277) bypasses
`_prune_memory_cache`, so the cache is not bounded to 370 and the 30
oldest dates (date 0 among them) are not evicted. -/
theorem loadDailyPollenMap_bound_counterexample :
    (dates400.foldl
      (fun s d => (loadDailyPollenMap s exhaustEnv d false).state)
      emptyState).dailyCache.length = 400 ∧
    alookup (dates400.foldl
      (fun s d => (loadDailyPollenMap s exhaustEnv d false).state)
      emptyState).dailyCache 0 = some [] := by
  have hinj : Function.Injective (fun i : ℕ => (i : ℤ)) :=
    fun a b h => Int.natCast_inj.mp h
  have hnd : dates400.Nodup :=
    List.Nodup.map hinj (List.nodup_range 400)
  obtain ⟨_, hlen, _, hin⟩ :=
    exhaustFold dates400 emptyState rfl hnd (fun _ _ => rfl)
  constructor
  · rw [hlen]
    rfl
  · exact hin 0
      (List.mem_map.mpr ⟨0, List.mem_range.mpr (by norm_num), rfl⟩)

theorem countP_split (L : List ℤ) (k : ℤ) :
    k ∉ L →
    L.countP (fun j => decide (j < k)) + L.countP (fun j => decide (k < j)) =
      L.length := by
  induction L with
  | nil => intro _; rfl
  | cons a rest ih =>
      intro hk
      have hrest : k ∉ rest := fun h => hk (List.mem_cons_of_mem _ h)
      have hak : a ≠ k := fun h => hk (h ▸ List.mem_cons_self a rest)
      have := ih hrest
      rw [List.countP_cons, List.countP_cons, List.length_cons]
      simp only [decide_eq_true_eq]
      rcases lt_trichotomy a k with h | h | h
      · rw [if_pos h, if_neg (lt_asymm h)]; omega
      · exact absurd h hak
      · rw [if_neg (lt_asymm h), if_pos h]; omega

theorem countP_mem_split (L : List ℤ) (k : ℤ) :
    L.Nodup → k ∈ L →
    L.countP (fun j => decide (j < k)) + L.countP (fun j => decide (k < j)) +
      1 = L.length := by
  induction L with
  | nil => intro _ hk; cases hk
  | cons a rest ih =>
      intro hnd hk
      have hnd' := List.nodup_cons.mp hnd
      rw [List.countP_cons, List.countP_cons, List.length_cons]
      simp only [decide_eq_true_eq]
      rcases List.mem_cons.mp hk with rfl | hk'
      · have := countP_split rest k hnd'.1
        simp only [lt_irrefl, if_false]
        omega
      · have := ih hnd'.2 hk'
        rcases lt_trichotomy a k with h | h | h
        · rw [if_pos h, if_neg (lt_asymm h)]; omega
        · subst h; exact absurd hk' hnd'.1
        · rw [if_neg (lt_asymm h), if_pos h]; omega

theorem countP_subset_le (L1 L2 : List ℤ) (p : ℤ → Bool)
    (hnd : L1.Nodup) (hsub : L1 ⊆ L2) :
    L1.countP p ≤ L2.countP p :=
  List.Subperm.countP_le p (List.Nodup.subperm hnd hsub)

/-- If `j < k` and `k ∈ L`, then `L` has strictly more elements above `j`
than above `k`. -/
theorem countP_gt_succ_le (L : List ℤ) (j k : ℤ) :
    k ∈ L → j < k →
    L.countP (fun i => decide (k < i)) + 1 ≤
      L.countP (fun i => decide (j < i)) := by
  induction L with
  | nil => intro hk _; cases hk
  | cons a rest ih =>
      intro hk hjk
      rw [List.countP_cons, List.countP_cons]
      simp only [decide_eq_true_eq]
      rcases List.mem_cons.mp hk with rfl | hk'
      · have hmono : rest.countP (fun i => decide (k < i)) ≤
            rest.countP (fun i => decide (j < i)) :=
          List.countP_mono_left (fun i _ h => by
            simp only [decide_eq_true_eq] at h ⊢
            exact lt_trans hjk h)
        rw [if_neg (lt_irrefl k), if_pos hjk]
        omega
      · have := ih hk' hjk
        by_cases h : k < a
        · rw [if_pos h, if_pos (lt_trans hjk h)]; omega
        · rw [if_neg h]
          by_cases h2 : j < a
          · rw [if_pos h2]; omega
          · rw [if_neg h2]; omega

/-- The ascending sort of a non-empty key list starts with a minimal
member. -/
theorem sortedKeys_min (keys : List ℤ) (h : keys ≠ []) :
    ∃ mk rest2, keys.insertionSort (fun a b => a ≤ b) = mk :: rest2 ∧
      mk ∈ keys ∧ ∀ j ∈ keys, mk ≤ j := by
  have hperm := List.perm_insertionSort (fun a b : ℤ => a ≤ b) keys
  have hsorted := List.sorted_insertionSort (fun a b : ℤ => a ≤ b) keys
  rcases hS : keys.insertionSort (fun a b => a ≤ b) with _ | ⟨mk, rest2⟩
  · rw [hS] at hperm
    exfalso
    apply h
    have hl := hperm.length_eq
    simp only [List.length_nil] at hl
    exact List.length_eq_zero.mp hl.symm
  · rw [hS] at hperm hsorted
    refine ⟨mk, rest2, rfl, hperm.mem_iff.mp (List.mem_cons_self mk rest2), ?_⟩
    intro j hj
    rcases List.mem_cons.mp (hperm.mem_iff.mpr hj) with rfl | hj'
    · exact le_refl j
    · exact List.rel_of_pairwise_cons hsorted hj'

theorem popKey_of_notMem {κ α : Type} [DecidableEq κ]
    (m : List (κ × α)) (k : κ) (h : k ∉ m.map Prod.fst) :
    popKey m k = m := by
  induction m with
  | nil => rfl
  | cons p rest ih =>
      obtain ⟨a, b⟩ := p
      simp only [List.map_cons, List.mem_cons] at h
      push_neg at h
      rw [popKey, if_neg (fun heq => h.1 heq.symm), ih h.2]

theorem popKey_length {κ α : Type} [DecidableEq κ]
    (m : List (κ × α)) (k : κ) (hnd : (m.map Prod.fst).Nodup)
    (hk : k ∈ m.map Prod.fst) :
    (popKey m k).length + 1 = m.length := by
  induction m with
  | nil => cases hk
  | cons p rest ih =>
      obtain ⟨a, b⟩ := p
      rw [List.map_cons] at hnd hk
      have hnd' := List.nodup_cons.mp hnd
      rcases List.mem_cons.mp hk with rfl | hk'
      · rw [popKey, if_pos rfl, popKey_of_notMem rest k hnd'.1]
        rfl
      · have hak : a ≠ k := by
          intro h; subst h; exact hnd'.1 hk'
        rw [popKey, if_neg hak, List.length_cons, List.length_cons,
          ← ih hnd'.2 hk']

theorem popKey_keys_sublist {κ α : Type} [DecidableEq κ]
    (m : List (κ × α)) (k : κ) :
    ((popKey m k).map Prod.fst).Sublist (m.map Prod.fst) := by
  induction m with
  | nil => exact List.Sublist.refl _
  | cons p rest ih =>
      obtain ⟨a, b⟩ := p
      rw [popKey]
      by_cases h : a = k
      · rw [if_pos h, List.map_cons]
        exact ih.cons a
      · rw [if_neg h, List.map_cons, List.map_cons]
        exact ih.cons₂ a

/-- Lemma: `_prune_memory_cache` on a 371-entry cache pops exactly the minimal
date key. -/
theorem pruneMemoryCache_371 (dc : List (ℤ × PollenMap))
    (sk : List (ℤ × SourceKey)) (dk : List (ℤ × List DailyEntry))
    (hlen : dc.length = 371) :
    ∃ mk, (mk ∈ dc.map Prod.fst ∧ ∀ j ∈ dc.map Prod.fst, mk ≤ j) ∧
      (pruneMemoryCache ⟨dc, sk, dk⟩).dailyCache = popKey dc mk := by
  obtain ⟨mk, rest2, hS, hmem, hmin⟩ := sortedKeys_min (dc.map Prod.fst)
    (by
      intro h
      have : dc = [] := List.map_eq_nil_iff.mp h
      rw [this] at hlen
      cases hlen)
  refine ⟨mk, ⟨hmem, hmin⟩, ?_⟩
  rw [pruneMemoryCache, if_neg (by show ¬ dc.length ≤ 370; omega)]
  show (pruneStaleKeys (dc.map Prod.fst)).foldl popKey dc = popKey dc mk
  rw [pruneStaleKeys]
  simp only [hS]
  have hlen2 : (mk :: rest2).length = 371 := by
    rw [← hS,
      (List.perm_insertionSort (fun a b : ℤ => a ≤ b) _).length_eq,
      List.length_map, hlen]
  rw [hlen2]
  show ((mk :: rest2).take 1).foldl popKey dc = popKey dc mk
  rfl

/-- One store-and-prune step of the resolver preserves the memory-cache
invariant: the cached keys are exactly the processed dates with fewer than
370 later processed dates, and the cache size is `min (#processed) 370`. -/
theorem insertPrune_inv (cache : List (ℤ × PollenMap))
    (sk : List (ℤ × SourceKey)) (dk : List (ℤ × List DailyEntry))
    (pre : List ℤ) (d : ℤ) (pm : PollenMap)
    (hpnd : pre.Nodup) (hd : d ∉ pre)
    (hknd : (cache.map Prod.fst).Nodup)
    (hlen : cache.length = min pre.length 370)
    (hch : ∀ k, (alookup cache k).isSome = true ↔
      (k ∈ pre ∧ pre.countP (fun j => decide (k < j)) < 370)) :
    (((pruneMemoryCache ⟨setKey cache d pm, sk, dk⟩).dailyCache.map
        Prod.fst).Nodup) ∧
    (pruneMemoryCache ⟨setKey cache d pm, sk, dk⟩).dailyCache.length =
      min (pre.length + 1) 370 ∧
    (∀ k,
      (alookup (pruneMemoryCache
        ⟨setKey cache d pm, sk, dk⟩).dailyCache k).isSome = true ↔
      (k ∈ pre ++ [d] ∧
        (pre ++ [d]).countP (fun j => decide (k < j)) < 370)) := by
  have hdnone : alookup cache d = none := by
    rcases hcd : alookup cache d with _ | m
    · rfl
    · exact absurd ((hch d).mp (by rw [hcd]; rfl)).1 hd
  have hset : setKey cache d pm = cache ++ [(d, pm)] :=
    setKey_of_none _ _ _ hdnone
  have hkeys : (setKey cache d pm).map Prod.fst =
      cache.map Prod.fst ++ [d] := by
    rw [hset, List.map_append]
    rfl
  have hdk : d ∉ cache.map Prod.fst := by
    intro hmem
    exact absurd
      ((hch d).mp ((alookup_isSome_iff_mem cache d).mpr hmem)).1 hd
  have hknd' : ((setKey cache d pm).map Prod.fst).Nodup := by
    rw [hkeys]
    exact List.nodup_append.mpr ⟨hknd, List.nodup_singleton d,
      fun a ha hb => hdk ((List.mem_singleton.mp hb) ▸ ha)⟩
  have hlenset : (setKey cache d pm).length = cache.length + 1 :=
    setKey_length_of_none _ _ _ hdnone
  have hmem_iff : ∀ k, k ∈ cache.map Prod.fst ↔
      (k ∈ pre ∧ pre.countP (fun j => decide (k < j)) < 370) :=
    fun k => (alookup_isSome_iff_mem cache k).symm.trans (hch k)
  have hpnd' : (pre ++ [d]).Nodup :=
    List.nodup_append.mpr ⟨hpnd, List.nodup_singleton d,
      fun a ha hb => hd ((List.mem_singleton.mp hb) ▸ ha)⟩
  have hsubpre : ∀ k, k ∈ cache.map Prod.fst ++ [d] → k ∈ pre ++ [d] := by
    intro k hk
    rcases List.mem_append.mp hk with hk | hk
    · exact List.mem_append_left _ ((hmem_iff k).mp hk).1
    · exact List.mem_append_right _ hk
  have hcount_mono : ∀ k,
      pre.countP (fun j => decide (k < j)) ≤
        (pre ++ [d]).countP (fun j => decide (k < j)) := by
    intro k
    rw [List.countP_append]
    omega
  by_cases hsmall : cache.length + 1 ≤ 370
  · have hprune : pruneMemoryCache ⟨setKey cache d pm, sk, dk⟩ =
        ⟨setKey cache d pm, sk, dk⟩ := by
      rw [pruneMemoryCache, if_pos (by rw [hlenset]; exact hsmall)]
    have hprelen : pre.length = cache.length := by
      rcases le_or_lt pre.length 370 with hp | hp
      · rw [min_eq_left hp] at hlen
        omega
      · rw [min_eq_right (by omega)] at hlen
        omega
    rw [hprune]
    refine ⟨hknd', ?_, ?_⟩
    · show (setKey cache d pm).length = _
      rw [hlenset, min_eq_left (by omega), hprelen]
    · intro k
      rw [show (⟨setKey cache d pm, sk, dk⟩ : ClientState).dailyCache =
        setKey cache d pm from rfl]
      rw [alookup_isSome_iff_mem, hkeys]
      constructor
      · intro hk
        refine ⟨hsubpre k hk, ?_⟩
        have hsplit := countP_mem_split (pre ++ [d]) k hpnd' (hsubpre k hk)
        have hl : (pre ++ [d]).length = pre.length + 1 := by
          rw [List.length_append]
          rfl
        omega
      · rintro ⟨hk, -⟩
        rcases List.mem_append.mp hk with hk | hk
        · refine List.mem_append_left _ ((hmem_iff k).mpr ⟨hk, ?_⟩)
          have hsplit := countP_mem_split pre k hpnd hk
          omega
        · exact List.mem_append_right _ hk
  · have hc370 : cache.length = 370 := by
      have := min_le_right pre.length 370
      omega
    have hp370 : 370 ≤ pre.length := by
      rcases le_or_lt 370 pre.length with h | h
      · exact h
      · rw [min_eq_left (by omega)] at hlen
        omega
    obtain ⟨mk, ⟨hmkmem, hmkmin⟩, hpruneeq⟩ :=
      pruneMemoryCache_371 (setKey cache d pm) sk dk
        (by rw [hlenset, hc370])
    rw [hpruneeq]
    rw [hkeys] at hmkmem hmkmin
    have hK'len : (cache.map Prod.fst ++ [d]).length = 371 := by
      rw [List.length_append, List.length_map, hc370]
      rfl
    have hK'nd : (cache.map Prod.fst ++ [d]).Nodup := by
      rw [← hkeys]
      exact hknd'
    -- the minimum of the 371 keys has 370 keys above it
    have hmk_keycount :
        (cache.map Prod.fst ++ [d]).countP (fun j => decide (mk < j)) =
          370 := by
      have hzero :
          (cache.map Prod.fst ++ [d]).countP (fun j => decide (j < mk)) =
            0 :=
        List.countP_eq_zero.mpr (fun j hj => by
          simp only [decide_eq_true_eq]
          exact not_lt_of_le (hmkmin j hj))
      have := countP_mem_split (cache.map Prod.fst ++ [d]) mk hK'nd hmkmem
      omega
    have hmk_precount : 370 ≤
        (pre ++ [d]).countP (fun j => decide (mk < j)) := by
      rw [← hmk_keycount]
      exact countP_subset_le _ _ _ hK'nd hsubpre
    refine ⟨?_, ?_, ?_⟩
    · exact List.Nodup.sublist (popKey_keys_sublist _ mk) hknd'
    · have := popKey_length (setKey cache d pm) mk
        (by rw [hkeys]; exact hK'nd) (by rw [hkeys]; exact hmkmem)
      rw [min_eq_right (by omega), hlenset, hc370] at *
      omega
    · intro k
      rw [alookup_popKey]
      by_cases hkmk : k = mk
      · subst hkmk
        rw [if_pos rfl]
        simp only [Option.isSome_none, Bool.false_eq_true, false_iff]
        rintro ⟨-, hcnt⟩
        omega
      · rw [if_neg hkmk, alookup_isSome_iff_mem, hkeys]
        constructor
        · intro hk
          refine ⟨hsubpre k hk, ?_⟩
          by_contra hbig
          push_neg at hbig
          -- k has at least 370 processed dates above it, so it has 370
          -- cached keys above it, which together with mk and k itself
          -- would give 372 keys
          have hkey370 : 370 ≤ (cache.map Prod.fst ++ [d]).countP
              (fun j => decide (k < j)) := by
            rcases List.mem_append.mp hk with hkc | hkd
            · -- k is an old cached key
              obtain ⟨hkpre, hkcnt⟩ := (hmem_iff k).mp hkc
              have hkd2 : k < d := by
                have := hcount_mono k
                rw [List.countP_append] at hbig
                simp only [List.countP_cons, List.countP_nil,
                  decide_eq_true_eq] at hbig
                by_contra hnl
                rw [if_neg hnl] at hbig
                omega
              have hcnt369 : pre.countP (fun j => decide (k < j)) = 369 := by
                rw [List.countP_append] at hbig
                simp only [List.countP_cons, List.countP_nil,
                  decide_eq_true_eq] at hbig
                rw [if_pos hkd2] at hbig
                omega
              -- every other cached key is above k
              have hallgt : ∀ j ∈ cache.map Prod.fst, j ≠ k → k < j := by
                intro j hj hjk
                obtain ⟨hjpre, hjcnt⟩ := (hmem_iff j).mp hj
                rcases lt_trichotomy j k with h | h | h
                · exfalso
                  have := countP_gt_succ_le pre j k hkpre h
                  omega
                · exact absurd h hjk
                · exact h
              have hz : (cache.map Prod.fst).countP
                  (fun j => decide (j < k)) = 0 :=
                List.countP_eq_zero.mpr (fun j hj => by
                  simp only [decide_eq_true_eq]
                  by_cases hjk : j = k
                  · subst hjk; exact lt_irrefl j
                  · exact not_lt_of_le (le_of_lt (hallgt j hj hjk)))
              have hsplitk := countP_mem_split (cache.map Prod.fst) k
                hknd hkc
              rw [List.countP_append]
              simp only [List.countP_cons, List.countP_nil,
                decide_eq_true_eq]
              rw [List.length_map, hc370] at hsplitk
              rw [if_pos hkd2]
              omega
            · -- k = d
              rw [List.mem_singleton] at hkd
              subst hkd
              have hallgt : ∀ j ∈ cache.map Prod.fst, k < j := by
                intro j hj
                obtain ⟨hjpre, hjcnt⟩ := (hmem_iff j).mp hj
                rcases lt_trichotomy j k with h | h | h
                · exfalso
                  have hmono : pre.countP (fun i => decide (k < i)) ≤
                      pre.countP (fun i => decide (j < i)) :=
                    List.countP_mono_left (fun i _ hi => by
                      simp only [decide_eq_true_eq] at hi ⊢
                      exact lt_trans h hi)
                  rw [List.countP_append] at hbig
                  simp only [List.countP_cons, List.countP_nil,
                    decide_eq_true_eq, lt_irrefl, if_false] at hbig
                  omega
                · exact absurd h (by
                    intro heq
                    subst heq
                    exact hdk hj)
                · exact h
              have : (cache.map Prod.fst).countP
                  (fun j => decide (k < j)) = (cache.map Prod.fst).length :=
                List.countP_eq_length.mpr (fun j hj => by
                  simp only [decide_eq_true_eq]
                  exact hallgt j hj)
              rw [List.countP_append]
              rw [List.length_map, hc370] at this
              omega
          -- contradiction: mk < k is also a key
          have hmklt : mk < k :=
            lt_of_le_of_ne (hmkmin k hk) (fun h => hkmk (h.symm))
          have hpos : 0 < (cache.map Prod.fst ++ [d]).countP
              (fun j => decide (j < k)) :=
            List.countP_pos_iff.mpr ⟨mk, hmkmem, by
              simp only [decide_eq_true_eq]
              exact hmklt⟩
          have := countP_mem_split (cache.map Prod.fst ++ [d]) k hK'nd hk
          omega
        · rintro ⟨hk, hcnt⟩
          rcases List.mem_append.mp hk with hk | hk
          · refine List.mem_append_left _ ((hmem_iff k).mpr ⟨hk, ?_⟩)
            have := hcount_mono k
            omega
          · exact List.mem_append_right _ hk

/-- The live-download path: no disk file for the date, live fetch enabled
and a non-empty download — the downloaded entries are alias-expanded,
stored and pruned, and persisted when the write succeeds. -/
theorem resolveFresh_liveHit (st : ClientState) (env : FetchEnv) (d : ℤ)
    (hdisk : alookup st.disk d = none)
    (hlive : env.disableLiveFetch = false)
    (hdown : env.downloaded ≠ []) :
    resolveFresh st env d false =
      ⟨buildPollenMap env.sources env.downloaded,
       pruneMemoryCache
         ⟨setKey st.dailyCache d
            (buildPollenMap env.sources env.downloaded),
          setKey st.sourceKeys d (SourceKey.forDate d),
          if env.writeOk then setKey st.disk d env.downloaded
          else st.disk⟩,
       if env.writeOk then some env.downloaded else none⟩ := by
  have h0 : initialDiskRead st env d false = none := by
    rw [initialDiskRead, if_neg (by rw [hdisk]; simp)]
  have hle : liveEntries env = env.downloaded := by
    simp [liveEntries, hlive]
  have hE : refreshEntries env = env.downloaded := by
    rw [refreshEntries, hle, if_neg hdown]
  have hrb : refreshBlock st env d =
      ⟨some env.downloaded, SourceKey.forDate d,
       if env.writeOk then some env.downloaded else none,
       if env.writeOk then setKey st.disk d env.downloaded
       else st.disk⟩ := by
    rw [refreshBlock, if_pos (by rw [hE]; exact hdown), hE, hle,
      if_neg hdown]
  obtain ⟨e, es, hde⟩ := List.exists_cons_of_ne_nil hdown
  simp only [resolveFresh, h0, hrb]
  simp only [true_or, if_true]
  rw [if_neg (by simp [hde])]
  rw [hde]
  rfl

/-- Invariant of folding live-hit resolutions over fresh distinct dates:
the cached keys are exactly the processed dates having fewer than 370
later processed dates, and disk files only exist for processed dates. -/
theorem resolveFoldInv (dates : List ℤ) (envF : ℤ → FetchEnv) :
    ∀ (pre : List ℤ) (st : ClientState),
    (pre ++ dates).Nodup →
    (∀ d ∈ dates, (envF d).disableLiveFetch = false) →
    (∀ d ∈ dates, (envF d).downloaded ≠ []) →
    (st.dailyCache.map Prod.fst).Nodup →
    st.dailyCache.length = min pre.length 370 →
    (∀ k, (alookup st.dailyCache k).isSome = true ↔
      (k ∈ pre ∧ pre.countP (fun j => decide (k < j)) < 370)) →
    (∀ k, (alookup st.disk k).isSome = true → k ∈ pre) →
    (((dates.foldl
        (fun s d => (loadDailyPollenMap s (envF d) d false).state)
        st).dailyCache.map Prod.fst).Nodup ∧
     (dates.foldl
        (fun s d => (loadDailyPollenMap s (envF d) d false).state)
        st).dailyCache.length = min (pre ++ dates).length 370 ∧
     (∀ k, (alookup (dates.foldl
        (fun s d => (loadDailyPollenMap s (envF d) d false).state)
        st).dailyCache k).isSome = true ↔
       (k ∈ pre ++ dates ∧
         (pre ++ dates).countP (fun j => decide (k < j)) < 370))) := by
  induction dates with
  | nil =>
      intro pre st _ _ _ h1 h2 h3 _
      simpa using ⟨h1, h2, h3⟩
  | cons d rest ih =>
      intro pre st hnd hlive hdown h1 h2 h3 hdiskinv
      have hrearr : pre ++ d :: rest = (pre ++ [d]) ++ rest := by
        rw [List.append_assoc]
        rfl
      have hnd2 : ((pre ++ [d]) ++ rest).Nodup := by rw [← hrearr]; exact hnd
      have hpre_nd : pre.Nodup :=
        ((List.nodup_append.mp hnd).1)
      have hd_not_pre : d ∉ pre := by
        intro hmem
        exact (List.nodup_append.mp hnd).2.2 hmem
          (List.mem_cons_self d rest)
      have hmemd : alookup st.dailyCache d = none := by
        rcases hopt : alookup st.dailyCache d with _ | m
        · rfl
        · exact absurd ((h3 d).mp (by rw [hopt]; rfl)).1 hd_not_pre
      have hdiskd : alookup st.disk d = none := by
        rcases hopt : alookup st.disk d with _ | es
        · rfl
        · exact absurd (hdiskinv d (by rw [hopt]; rfl)) hd_not_pre
      have hdmem : d ∈ d :: rest := List.mem_cons_self d rest
      have hstep : (loadDailyPollenMap st (envF d) d false).state =
          pruneMemoryCache
            ⟨setKey st.dailyCache d
               (buildPollenMap (envF d).sources (envF d).downloaded),
             setKey st.sourceKeys d (SourceKey.forDate d),
             if (envF d).writeOk then setKey st.disk d (envF d).downloaded
             else st.disk⟩ := by
        rw [loadDailyPollenMap_memMiss st (envF d) d false
            (by simp [hmemd]),
          resolveFresh_liveHit st (envF d) d hdiskd (hlive d hdmem)
            (hdown d hdmem)]
      obtain ⟨j1, j2, j3⟩ := insertPrune_inv st.dailyCache
        (setKey st.sourceKeys d (SourceKey.forDate d))
        (if (envF d).writeOk then setKey st.disk d (envF d).downloaded
         else st.disk)
        pre d (buildPollenMap (envF d).sources (envF d).downloaded)
        hpre_nd hd_not_pre h1 h2 h3
      have hdiskinv' : ∀ k,
          (alookup ((loadDailyPollenMap st (envF d) d
            false).state).disk k).isSome = true → k ∈ pre ++ [d] := by
        intro k hk
        rw [hstep, pruneMemoryCache_disk] at hk
        dsimp only at hk
        by_cases hw : (envF d).writeOk = true
        · rw [if_pos hw, alookup_setKey] at hk
          by_cases hdk2 : d = k
          · subst hdk2
            exact List.mem_append_right _ (List.mem_singleton_self d)
          · rw [if_neg hdk2] at hk
            exact List.mem_append_left _ (hdiskinv k hk)
        · rw [if_neg hw] at hk
          exact List.mem_append_left _ (hdiskinv k hk)
      have hresult := ih (pre ++ [d])
        ((loadDailyPollenMap st (envF d) d false).state)
        hnd2
        (fun d2 h => hlive d2 (List.mem_cons_of_mem _ h))
        (fun d2 h => hdown d2 (List.mem_cons_of_mem _ h))
        (by rw [hstep]; exact j1)
        (by rw [hstep, j2, List.length_append]; rfl)
        (by rw [hstep]; exact j3)
        hdiskinv'
      rw [List.foldl_cons]
      rw [hrearr]
      exact hresult

/-- C6 (amended): resolving 400 distinct dates through the live tier (so
every resolution is non-empty and the prune runs) leaves exactly
370 entries — a key remains in memory iff fewer than 370 of the resolved
dates are later than it, i.e. exactly the 370 most recent dates survive
and the 30 oldest are evicted.  (Resolutions that come up empty bypass
the prune; see the counterexample.) -/
theorem loadDailyPollenMap_memory_bound (dates : List ℤ)
    (envF : ℤ → FetchEnv)
    (hnd : dates.Nodup) (hlen : dates.length = 400)
    (hlive : ∀ d ∈ dates, (envF d).disableLiveFetch = false)
    (hdown : ∀ d ∈ dates, (envF d).downloaded ≠ []) :
    (dates.foldl
      (fun s d => (loadDailyPollenMap s (envF d) d false).state)
      emptyState).dailyCache.length = 370 ∧
    (∀ k, (alookup (dates.foldl
      (fun s d => (loadDailyPollenMap s (envF d) d false).state)
      emptyState).dailyCache k).isSome = true ↔
      (k ∈ dates ∧ dates.countP (fun j => decide (k < j)) < 370)) := by
  obtain ⟨_, h2, h3⟩ := resolveFoldInv dates envF [] emptyState
    (by simpa using hnd) hlive hdown
    List.nodup_nil
    (by simp [emptyState])
    (by intro k; simp [emptyState, alookup])
    (by intro k hk; simp [emptyState, alookup] at hk)
  constructor
  · rw [h2]
    simp [hlen]
  · intro k
    have := h3 k
    simpa using this

/-- Witness for `loadDailyPollenMap_memory_bound` with dates 0 … 399 and a
constant live environment. -/
theorem loadDailyPollenMap_memory_bound_witness :
    dates400.Nodup ∧ dates400.length = 400 ∧
    (dates400.foldl
      (fun s d => (loadDailyPollenMap s liveEnv d false).state)
      emptyState).dailyCache.length = 370 := by
  have hnd : dates400.Nodup :=
    List.Nodup.map (fun a b h => Int.natCast_inj.mp h)
      (List.nodup_range 400)
  refine ⟨hnd, rfl, ?_⟩
  exact (loadDailyPollenMap_memory_bound dates400 (fun _ => liveEnv)
    hnd rfl (fun _ _ => rfl) (fun _ _ => by
      show liveEnv.downloaded ≠ []
      decide)).1

theorem popFold_lookup_some {κ α : Type} [DecidableEq κ]
    (ks : List κ) :
    ∀ (m : List (κ × α)) (k : κ) (v : α),
      alookup (ks.foldl popKey m) k = some v → alookup m k = some v := by
  induction ks with
  | nil => intro m k v h; exact h
  | cons k0 rest ih =>
      intro m k v h
      have := ih (popKey m k0) k v h
      rw [alookup_popKey] at this
      by_cases hk : k = k0
      · rw [if_pos hk] at this; cases this
      · rw [if_neg hk] at this; exact this

theorem pruneMemoryCache_lookup_some (st : ClientState) (k : ℤ)
    (v : PollenMap)
    (h : alookup (pruneMemoryCache st).dailyCache k = some v) :
    alookup st.dailyCache k = some v := by
  rw [pruneMemoryCache] at h
  split at h
  · exact h
  · exact popFold_lookup_some _ _ _ _ h

/-- Whatever `_load_daily_pollen_map` stores for the requested date is the
map it returns. -/
theorem finalizeResolve_stored (st : ClientState) (env : FetchEnv) (d : ℤ)
    (r : RefreshOut) (m : PollenMap)
    (h : alookup (finalizeResolve st env d r).state.dailyCache d = some m) :
    m = (finalizeResolve st env d r).map := by
  obtain ⟨c, sk2, pers, dsk⟩ := r
  rw [finalizeResolve] at h ⊢
  rcases c with _ | es
  · dsimp only at h ⊢
    rw [alookup_setKey, if_pos rfl] at h
    exact (Option.some.inj h).symm
  · rcases es with _ | ⟨e, es'⟩
    · dsimp only at h ⊢
      rw [alookup_setKey, if_pos rfl] at h
      exact (Option.some.inj h).symm
    · dsimp only at h ⊢
      have := pruneMemoryCache_lookup_some _ _ _ h
      rw [alookup_setKey, if_pos rfl] at this
      exact (Option.some.inj this).symm

theorem resolveFresh_stored (st : ClientState) (env : FetchEnv) (d : ℤ)
    (force : Bool) (m : PollenMap)
    (h : alookup (resolveFresh st env d force).state.dailyCache d = some m) :
    m = (resolveFresh st env d force).map :=
  finalizeResolve_stored st env d _ m h

theorem initialDiskRead_congr (st1 st2 : ClientState) (env : FetchEnv)
    (d : ℤ) (force : Bool)
    (h : alookup st1.disk d = alookup st2.disk d) :
    initialDiskRead st1 env d force = initialDiskRead st2 env d force := by
  rw [initialDiskRead, initialDiskRead, h]

theorem initialDiskRead_eq_some (st : ClientState) (env : FetchEnv)
    (d : ℤ) (force : Bool) (es : List DailyEntry)
    (h : initialDiskRead st env d force = some es) :
    alookup st.disk d = some es ∧ force = false ∧
      env.disableLiveFetch = false ∧ env.readOk1 = true := by
  rw [initialDiskRead] at h
  split at h
  · next hc => exact ⟨h, hc.2.1, hc.2.2.1, hc.2.2.2⟩
  · cases h

/-- The stale scan never returns an empty payload. -/
theorem loadRecentCache_some_ne_nil (target : ℤ) (scanOk : ℤ → Bool)
    (files : List (ℤ × List DailyEntry)) (k : ℤ) (p : List DailyEntry)
    (h : loadRecentCache target scanOk files = some (k, p)) : p ≠ [] := by
  have hinv := scanFold_inv target scanOk files [] none
    ⟨fun _ c hc => absurd hc (List.not_mem_nil c), fun b hb => by cases hb⟩
  rw [loadRecentCache] at h
  rcases hfold : files.foldl (recentStep target scanOk) none with _ | b
  · rw [hfold] at h; cases h
  · rw [hfold] at h
    have hkp : (b.day, b.payload) = (k, p) := Option.some.inj h
    rw [Prod.mk.injEq] at hkp
    rw [hfold] at hinv
    have hc := (hinv.2 b rfl).2.1
    rw [hkp.2] at hc
    exact hc.2.2.1

theorem refreshBlock_retry (st : ClientState) (env : FetchEnv) (d : ℤ)
    (p : List DailyEntry) (hE : refreshEntries env = [])
    (hretry : (if env.readOk2 then alookup st.disk d else none) = some p) :
    refreshBlock st env d = ⟨some p, SourceKey.forDate d, none, st.disk⟩ := by
  have hdiskSome : (alookup st.disk d).isSome = true := by
    rcases hr2 : env.readOk2 with _ | _
    · rw [hr2] at hretry; simp at hretry
    · rw [hr2, if_pos rfl] at hretry
      rw [hretry]
      rfl
  rw [refreshBlock, if_neg (by simp [hE]), if_pos hdiskSome, hretry]

theorem refreshBlock_nothing (st : ClientState) (env : FetchEnv) (d : ℤ)
    (hE : refreshEntries env = [])
    (hretry : (if env.readOk2 then alookup st.disk d else none) = none) :
    refreshBlock st env d = ⟨none, SourceKey.forDate d, none, st.disk⟩ := by
  rw [refreshBlock, if_neg (by simp [hE])]
  by_cases hds : (alookup st.disk d).isSome = true
  · rw [if_pos hds, hretry]
  · rw [if_neg hds]

/-- Path lemma: usable initial disk read. -/
theorem resolveFresh_pathDisk (st : ClientState) (env : FetchEnv) (d : ℤ)
    (es : List DailyEntry)
    (hA : initialDiskRead st env d false = some es) (hne : es ≠ []) :
    resolveFresh st env d false =
      ⟨buildPollenMap env.sources es,
       pruneMemoryCache
         ⟨setKey st.dailyCache d (buildPollenMap env.sources es),
          setKey st.sourceKeys d (SourceKey.forDate d), st.disk⟩,
       none⟩ := by
  obtain ⟨e, es', rfl⟩ := List.exists_cons_of_ne_nil hne
  simp only [resolveFresh, hA]
  rw [if_neg (by simp)]
  rw [if_neg (by simp)]
  rfl

/-- Path lemma: refresh block yields entries. -/
theorem resolveFresh_pathRefresh (st : ClientState) (env : FetchEnv)
    (d : ℤ) (hA : initialDiskRead st env d false = none)
    (hne : refreshEntries env ≠ []) :
    resolveFresh st env d false =
      ⟨buildPollenMap env.sources (refreshEntries env),
       pruneMemoryCache
         ⟨setKey st.dailyCache d
            (buildPollenMap env.sources (refreshEntries env)),
          setKey st.sourceKeys d
            (if liveEntries env = [] then SourceKey.staticFor d
             else SourceKey.forDate d),
          if env.writeOk then setKey st.disk d (refreshEntries env)
          else st.disk⟩,
       if env.writeOk then some (refreshEntries env) else none⟩ := by
  have hrb : refreshBlock st env d =
      ⟨some (refreshEntries env),
       if liveEntries env = [] then SourceKey.staticFor d
       else SourceKey.forDate d,
       if env.writeOk then some (refreshEntries env) else none,
       if env.writeOk then setKey st.disk d (refreshEntries env)
       else st.disk⟩ := by
    rw [refreshBlock, if_pos hne]
  obtain ⟨e, es', hde⟩ := List.exists_cons_of_ne_nil hne
  simp only [resolveFresh, hA, hrb]
  simp only [true_or, if_true]
  rw [if_neg (by simp [hde])]
  rw [hde]
  rfl

/-- Path lemma: refresh empty, but the retry read of the date's own file
succeeds with non-empty content. -/
theorem resolveFresh_pathRetry (st : ClientState) (env : FetchEnv) (d : ℤ)
    (p : List DailyEntry)
    (hA : initialDiskRead st env d false = none)
    (hE : refreshEntries env = [])
    (hretry : (if env.readOk2 then alookup st.disk d else none) = some p)
    (hp : p ≠ []) :
    resolveFresh st env d false =
      ⟨buildPollenMap env.sources p,
       pruneMemoryCache
         ⟨setKey st.dailyCache d (buildPollenMap env.sources p),
          setKey st.sourceKeys d (SourceKey.forDate d), st.disk⟩,
       none⟩ := by
  obtain ⟨e, es', hde⟩ := List.exists_cons_of_ne_nil hp
  simp only [resolveFresh, hA, refreshBlock_retry st env d p hE hretry]
  simp only [true_or, if_true]
  rw [if_neg (by simp [hde])]
  rw [hde]
  rfl

/-- Path lemma: nothing cached or refreshed, but a stale fallback file is
found. -/
theorem resolveFresh_pathStale (st : ClientState) (env : FetchEnv) (d : ℤ)
    (c : Option (List DailyEntry)) (k : ℤ) (p : List DailyEntry)
    (hA : initialDiskRead st env d false = none)
    (hrb : refreshBlock st env d = ⟨c, SourceKey.forDate d, none, st.disk⟩)
    (hc : c = none ∨ c = some [])
    (hscan : loadRecentCache d env.scanOk st.disk = some (k, p))
    (hp : p ≠ []) :
    resolveFresh st env d false =
      ⟨buildPollenMap env.sources p,
       pruneMemoryCache
         ⟨setKey st.dailyCache d (buildPollenMap env.sources p),
          setKey st.sourceKeys d (SourceKey.stale k), st.disk⟩,
       none⟩ := by
  obtain ⟨e, es', hde⟩ := List.exists_cons_of_ne_nil hp
  simp only [resolveFresh, hA, hrb]
  simp only [true_or, if_true]
  rw [if_pos (by rcases hc with h | h <;> rw [h] <;> simp)]
  simp only [hscan]
  rw [hde]
  rfl

/-- Path lemma: the initial read yielded an empty file payload and a
stale fallback file is found. -/
theorem resolveFresh_pathEmptyDiskStale (st : ClientState) (env : FetchEnv)
    (d : ℤ) (k : ℤ) (p : List DailyEntry)
    (hA : initialDiskRead st env d false = some [])
    (hscan : loadRecentCache d env.scanOk st.disk = some (k, p))
    (hp : p ≠ []) :
    resolveFresh st env d false =
      ⟨buildPollenMap env.sources p,
       pruneMemoryCache
         ⟨setKey st.dailyCache d (buildPollenMap env.sources p),
          setKey st.sourceKeys d (SourceKey.stale k), st.disk⟩,
       none⟩ := by
  obtain ⟨e, es', hde⟩ := List.exists_cons_of_ne_nil hp
  simp only [resolveFresh, hA]
  rw [if_neg (show ¬((some ([] : List DailyEntry) = none) ∨ false = true)
    from by decide)]
  rw [if_pos (Or.inr rfl)]
  simp only [hscan]
  rw [hde]
  rfl

/-- Path lemma: the initial read yielded an empty file payload and no
stale fallback exists — the empty map is stored. -/
theorem resolveFresh_pathEmptyDiskNoStale (st : ClientState)
    (env : FetchEnv) (d : ℤ)
    (hA : initialDiskRead st env d false = some [])
    (hscan : loadRecentCache d env.scanOk st.disk = none) :
    resolveFresh st env d false =
      ⟨[],
       ⟨setKey st.dailyCache d [],
        setKey st.sourceKeys d (SourceKey.forDate d), st.disk⟩,
       none⟩ := by
  simp only [resolveFresh, hA]
  rw [if_neg (show ¬((some ([] : List DailyEntry) = none) ∨ false = true)
    from by decide)]
  rw [if_pos (Or.inr rfl)]
  simp only [hscan]
  rfl

/-- Path lemma: nothing cached or refreshed and no stale fallback — the
empty map is stored. -/
theorem resolveFresh_pathNothing (st : ClientState) (env : FetchEnv)
    (d : ℤ) (c : Option (List DailyEntry))
    (hA : initialDiskRead st env d false = none)
    (hrb : refreshBlock st env d = ⟨c, SourceKey.forDate d, none, st.disk⟩)
    (hc : c = none ∨ c = some [])
    (hscan : loadRecentCache d env.scanOk st.disk = none) :
    resolveFresh st env d false =
      ⟨[],
       ⟨setKey st.dailyCache d [],
        setKey st.sourceKeys d (SourceKey.forDate d), st.disk⟩,
       none⟩ := by
  simp only [resolveFresh, hA, hrb]
  simp only [true_or, if_true]
  rw [if_pos (by rcases hc with h | h <;> rw [h] <;> simp)]
  simp only [hscan]
  rcases hc with h | h <;> rw [h] <;> rfl

/-- The returned map of a fresh (non-memory) resolution depends on the
client state only through the date's own disk file and the stale scan of
the disk — not through the memory cache. -/
theorem resolveFresh_map_congr (st1 st2 : ClientState) (env : FetchEnv)
    (d : ℤ)
    (h1 : alookup st1.disk d = alookup st2.disk d)
    (h2 : loadRecentCache d env.scanOk st1.disk =
      loadRecentCache d env.scanOk st2.disk) :
    (resolveFresh st1 env d false).map = (resolveFresh st2 env d false).map := by
  have hA12 : initialDiskRead st1 env d false =
      initialDiskRead st2 env d false :=
    initialDiskRead_congr _ _ _ _ _ h1
  rcases hA : initialDiskRead st2 env d false with _ | es
  · rw [hA] at hA12
    by_cases hE : refreshEntries env = []
    · rcases hretry : (if env.readOk2 then alookup st2.disk d else none)
        with _ | p
      · have hretry1 : (if env.readOk2 then alookup st1.disk d else none) =
            none := by rw [h1]; exact hretry
        have hrb1 := refreshBlock_nothing st1 env d hE hretry1
        have hrb2 := refreshBlock_nothing st2 env d hE hretry
        rcases hscan : loadRecentCache d env.scanOk st2.disk with _ | kp
        · rw [resolveFresh_pathNothing st1 env d none hA12 hrb1
              (Or.inl rfl) (by rw [h2]; exact hscan),
            resolveFresh_pathNothing st2 env d none hA hrb2
              (Or.inl rfl) hscan]
        · obtain ⟨k, p⟩ := kp
          have hp := loadRecentCache_some_ne_nil d env.scanOk st2.disk k p
            hscan
          rw [resolveFresh_pathStale st1 env d none k p hA12 hrb1
              (Or.inl rfl) (by rw [h2]; exact hscan) hp,
            resolveFresh_pathStale st2 env d none k p hA hrb2
              (Or.inl rfl) hscan hp]
      · have hretry1 : (if env.readOk2 then alookup st1.disk d else none) =
            some p := by rw [h1]; exact hretry
        by_cases hp : p = []
        · subst hp
          have hrb1 := refreshBlock_retry st1 env d [] hE hretry1
          have hrb2 := refreshBlock_retry st2 env d [] hE hretry
          rcases hscan : loadRecentCache d env.scanOk st2.disk with _ | kp
          · rw [resolveFresh_pathNothing st1 env d (some []) hA12 hrb1
                (Or.inr rfl) (by rw [h2]; exact hscan),
              resolveFresh_pathNothing st2 env d (some []) hA hrb2
                (Or.inr rfl) hscan]
          · obtain ⟨k, q⟩ := kp
            have hq := loadRecentCache_some_ne_nil d env.scanOk st2.disk k q
              hscan
            rw [resolveFresh_pathStale st1 env d (some []) k q hA12 hrb1
                (Or.inr rfl) (by rw [h2]; exact hscan) hq,
              resolveFresh_pathStale st2 env d (some []) k q hA hrb2
                (Or.inr rfl) hscan hq]
        · rw [resolveFresh_pathRetry st1 env d p hA12 hE hretry1 hp,
            resolveFresh_pathRetry st2 env d p hA hE hretry hp]
    · rw [resolveFresh_pathRefresh st1 env d hA12 hE,
        resolveFresh_pathRefresh st2 env d hA hE]
  · rw [hA] at hA12
    by_cases hes : es = []
    · subst hes
      rcases hscan : loadRecentCache d env.scanOk st2.disk with _ | kp
      · rw [resolveFresh_pathEmptyDiskNoStale st1 env d hA12
            (by rw [h2]; exact hscan),
          resolveFresh_pathEmptyDiskNoStale st2 env d hA hscan]
      · obtain ⟨k, p⟩ := kp
        have hp := loadRecentCache_some_ne_nil d env.scanOk st2.disk k p
          hscan
        rw [resolveFresh_pathEmptyDiskStale st1 env d k p hA12
            (by rw [h2]; exact hscan) hp,
          resolveFresh_pathEmptyDiskStale st2 env d k p hA hscan hp]
    · rw [resolveFresh_pathDisk st1 env d es hA12 hes,
        resolveFresh_pathDisk st2 env d es hA hes]

/-- A fresh resolution either leaves the disk untouched, or (exactly when
the refresh produced entries and the write succeeded) writes those
entries to the date's file. -/
theorem resolveFresh_disk_cases (st : ClientState) (env : FetchEnv)
    (d : ℤ) :
    (resolveFresh st env d false).state.disk = st.disk ∨
    (env.writeOk = true ∧ refreshEntries env ≠ [] ∧
      initialDiskRead st env d false = none) := by
  rcases hA : initialDiskRead st env d false with _ | es
  · by_cases hE : refreshEntries env = []
    · rcases hretry : (if env.readOk2 then alookup st.disk d else none)
        with _ | p
      · have hrb := refreshBlock_nothing st env d hE hretry
        rcases hscan : loadRecentCache d env.scanOk st.disk with _ | kp
        · rw [resolveFresh_pathNothing st env d none hA hrb (Or.inl rfl)
            hscan]
          exact Or.inl rfl
        · obtain ⟨k, p⟩ := kp
          have hp := loadRecentCache_some_ne_nil d env.scanOk st.disk k p
            hscan
          rw [resolveFresh_pathStale st env d none k p hA hrb (Or.inl rfl)
            hscan hp]
          exact Or.inl (pruneMemoryCache_disk _)
      · have hretry2 := hretry
        by_cases hp : p = []
        · subst hp
          have hrb := refreshBlock_retry st env d [] hE hretry
          rcases hscan : loadRecentCache d env.scanOk st.disk with _ | kp
          · rw [resolveFresh_pathNothing st env d (some []) hA hrb
              (Or.inr rfl) hscan]
            exact Or.inl rfl
          · obtain ⟨k, q⟩ := kp
            have hq := loadRecentCache_some_ne_nil d env.scanOk st.disk k q
              hscan
            rw [resolveFresh_pathStale st env d (some []) k q hA hrb
              (Or.inr rfl) hscan hq]
            exact Or.inl (pruneMemoryCache_disk _)
        · rw [resolveFresh_pathRetry st env d p hA hE hretry hp]
          exact Or.inl (pruneMemoryCache_disk _)
    · by_cases hw : env.writeOk = true
      · exact Or.inr ⟨hw, hE, hA ▸ rfl⟩
      · rw [resolveFresh_pathRefresh st env d hA hE]
        refine Or.inl ((pruneMemoryCache_disk _).trans ?_)
        exact if_neg hw
  · by_cases hes : es = []
    · subst hes
      rcases hscan : loadRecentCache d env.scanOk st.disk with _ | kp
      · rw [resolveFresh_pathEmptyDiskNoStale st env d hA hscan]
        exact Or.inl rfl
      · obtain ⟨k, p⟩ := kp
        have hp := loadRecentCache_some_ne_nil d env.scanOk st.disk k p
          hscan
        rw [resolveFresh_pathEmptyDiskStale st env d k p hA hscan hp]
        exact Or.inl (pruneMemoryCache_disk _)
    · rw [resolveFresh_pathDisk st env d es hA hes]
      exact Or.inl (pruneMemoryCache_disk _)

/-- After a write, a repeated fresh resolution re-reads or re-downloads
the same entries. -/
theorem resolveFresh_after_write (st1 : ClientState) (env : FetchEnv)
    (d : ℤ) (hE : refreshEntries env ≠ [])
    (hd1 : alookup st1.disk d = some (refreshEntries env)) :
    (resolveFresh st1 env d false).map =
      buildPollenMap env.sources (refreshEntries env) := by
  by_cases hc : env.disableLiveFetch = false ∧ env.readOk1 = true
  · have hA1 : initialDiskRead st1 env d false =
        some (refreshEntries env) := by
      rw [initialDiskRead, if_pos ⟨by rw [hd1]; rfl, rfl, hc.1, hc.2⟩, hd1]
    rw [resolveFresh_pathDisk st1 env d _ hA1 hE]
  · have hA1 : initialDiskRead st1 env d false = none := by
      rw [initialDiskRead, if_neg (by tauto)]
    rw [resolveFresh_pathRefresh st1 env d hA1 hE]

/-- Two consecutive fresh resolutions return the same map. -/
theorem resolveFresh_stable (st : ClientState) (env : FetchEnv) (d : ℤ) :
    (resolveFresh (resolveFresh st env d false).state env d false).map =
      (resolveFresh st env d false).map := by
  rcases resolveFresh_disk_cases st env d with hdisk | ⟨hw, hE, hA⟩
  · exact resolveFresh_map_congr _ _ env d (by rw [hdisk]) (by rw [hdisk])
  · rw [resolveFresh_pathRefresh st env d hA hE]
    dsimp only
    refine resolveFresh_after_write _ env d hE ?_
    rw [pruneMemoryCache_disk]
    show alookup (if env.writeOk = true
      then setKey st.disk d (refreshEntries env) else st.disk) d = _
    rw [if_pos hw, alookup_setKey, if_pos rfl]

/-- C8 (amended): two consecutive `_load_daily_pollen_map` calls for the
same date with `force_refresh = False` return identical content; whenever
the first call's entry for the date is still in memory afterwards
(which can fail only in the corner where storing it immediately trips the
370-entry prune, see the counterexample) the second call is a memory hit
returning the stored map with the state untouched and nothing persisted. -/
theorem loadDailyPollenMap_idempotent (st : ClientState) (env : FetchEnv)
    (d : ℤ) :
    (loadDailyPollenMap (loadDailyPollenMap st env d false).state env d
      false).map = (loadDailyPollenMap st env d false).map ∧
    (∀ m, alookup (loadDailyPollenMap st env d
        false).state.dailyCache d = some m →
      loadDailyPollenMap (loadDailyPollenMap st env d false).state env d
        false = ⟨m, (loadDailyPollenMap st env d false).state, none⟩ ∧
      m = (loadDailyPollenMap st env d false).map) := by
  constructor
  · rcases hm : alookup st.dailyCache d with _ | m0
    · have h1 := loadDailyPollenMap_memMiss st env d false (by simp [hm])
      rw [h1]
      rcases hm1 : alookup (resolveFresh st env d
        false).state.dailyCache d with _ | m1
      · have h2 := loadDailyPollenMap_memMiss
          (resolveFresh st env d false).state env d false (by simp [hm1])
        rw [h2, resolveFresh_stable]
      · rw [loadDailyPollenMap_memHit _ env d m1 hm1]
        show m1 = _
        exact resolveFresh_stored st env d false m1 hm1
    · have h1 := loadDailyPollenMap_memHit st env d m0 hm
      rw [h1]
      dsimp only
      rw [loadDailyPollenMap_memHit st env d m0 hm]
  · intro m hstored
    refine ⟨loadDailyPollenMap_memHit _ env d m hstored, ?_⟩
    rcases hm : alookup st.dailyCache d with _ | m0
    · have h1 := loadDailyPollenMap_memMiss st env d false (by simp [hm])
      rw [h1] at hstored ⊢
      exact resolveFresh_stored st env d false m hstored
    · have h1 := loadDailyPollenMap_memHit st env d m0 hm
      rw [h1] at hstored ⊢
      dsimp only at hstored ⊢
      rw [hm] at hstored
      exact (Option.some.inj hstored).symm

/-- Witness for `loadDailyPollenMap_idempotent`: after one live-tier
resolution the stored entry is hit from memory on the next call. -/
theorem loadDailyPollenMap_idempotent_witness :
    alookup (loadDailyPollenMap emptyState liveEnv 0
      false).state.dailyCache 0 =
      some [("c", ⟨some "c", none, "live"⟩)] ∧
    loadDailyPollenMap (loadDailyPollenMap emptyState liveEnv 0
      false).state liveEnv 0 false =
      ⟨[("c", ⟨some "c", none, "live"⟩)],
       (loadDailyPollenMap emptyState liveEnv 0 false).state, none⟩ :=
  ⟨by decide,
   ((loadDailyPollenMap_idempotent emptyState liveEnv 0).2
     [("c", ⟨some "c", none, "live"⟩)] (by decide)).1⟩

/-- C8 counterexample: with 370 later dates in memory, resolving date 0
stores its map and the prune evicts it immediately, so the second call is
*not* a memory hit of a stored map — the date is absent from memory — yet
the returned content is still identical (re-resolved from disk). -/
theorem loadDailyPollenMap_idempotent_counterexample :
    alookup (loadDailyPollenMap fullState diskEnv 0
      false).state.dailyCache 0 = none ∧
    (loadDailyPollenMap (loadDailyPollenMap fullState diskEnv 0
      false).state diskEnv 0 false).map =
      (loadDailyPollenMap fullState diskEnv 0 false).map := by
  refine ⟨by decide, by decide⟩

end PollenStorm

